import Mathlib

/-! # Brainguck: a shallow embedding of the interpreter

The Go package `brainguck` (`interpreter.go`) is a single-pass interpreter for
an eight-operator tape language.  This file embeds the interpreter state, the
step function `interpret` and the driver `Read`, and proves properties of them.

Modelling conventions:

* a `byte` is a natural number; cell arithmetic is written with an explicit
  `% 256`;
* a Go `int` (`index`, `offset`, `skipBlock`, the entries of `blockStack`) is
  an integer, 64 bits wide; the pointer increment `i.index++` of `>` wraps at the
  largest `int` as Go's does (`wrapInt`), and `i.offset++` is written
  `offset + 1`: `Read` resets the offset to 0 and keeps it within the program
  length;
* a Go slice is a list; `append` adds at the end and `s[:n-1]` drops the last
  element;
* a run-time panic (index out of range) is the result `none`;
* the standard input is the list of bytes still to be read, the standard output
  the list of bytes written so far;
* the driver loop may not terminate, so it takes a bound on the number of loop
  iterations and reports `Run.unfinished` when the bound is reached.
-/

namespace Brainguck

/-- The Go type `Interpreter` (the `out` file is kept by the driver as the list
of bytes written). -/
structure Interpreter where
  index : Int
  offset : Int
  cells : List Nat
  blockStack : List Int
  storeNext : Bool
  print : Bool
  skipBlock : Int
deriving DecidableEq, Repr

/-- The Go constructor `NewInterpreter`: 30000 zero cells, an empty block
stack, `skipBlock` equal to `-1`, every other field zero. -/
def NewInterpreter : Interpreter :=
  { index := 0
    offset := 0
    cells := List.replicate 30000 0
    blockStack := []
    storeNext := false
    print := false
    skipBlock := -1 }

/-- The bounds-checked slice read `s[i]`: `none` is the index-out-of-range
panic. -/
def readCell (s : List Nat) (i : Int) : Option Nat :=
  if 0 ≤ i then s[i.toNat]? else none

/-- The bounds-checked slice write `s[i] = v`: `none` is the index-out-of-range
panic. -/
def storeCell (s : List Nat) (i : Int) (v : Nat) : Option (List Nat) :=
  match readCell s i with
  | none => none
  | some _ => some (s.set i.toNat v)

/-- The value of a Go `int` computation on a 64-bit platform: `x` wrapped into
the range from `-2^63` to `2^63 - 1`, as two's complement overflow does. -/
def wrapInt (x : Int) : Int :=
  (x + 9223372036854775808) % 18446744073709551616 - 9223372036854775808

/-- The second `switch` of `interpret`, on the operator byte:
`>` 62, `<` 60, `+` 43, `-` 45, `.` 46, `,` 44; any other byte falls through to
`return 0`. -/
def interpretOperator (i : Interpreter) (b : Nat) : Option (Nat × Interpreter) :=
  if b = 62 then
    some (0, { i with index := wrapInt (i.index + 1) })
  else if b = 60 then
    some (0, if i.index > 0 then { i with index := i.index - 1 } else i)
  else if b = 43 then
    match readCell i.cells i.index with
    | none => none
    | some c =>
      match storeCell i.cells i.index ((c + 1) % 256) with
      | none => none
      | some cs => some (0, { i with cells := cs })
  else if b = 45 then
    match readCell i.cells i.index with
    | none => none
    | some c =>
      match storeCell i.cells i.index ((c + 255) % 256) with
      | none => none
      | some cs => some (0, { i with cells := cs })
  else if b = 46 then
    match readCell i.cells i.index with
    | none => none
    | some c => some (c, { i with print := true })
  else if b = 44 then
    some (0, { i with storeNext := true })
  else
    some (0, i)

/-- The Go method `interpret`: one step of the engine on the byte `b`; the
result is the returned byte and the state after the step (`[` is 91, `]` is
93). -/
def interpret (i : Interpreter) (b : Nat) : Option (Nat × Interpreter) :=
  if i.storeNext then
    match storeCell i.cells i.index b with
    | none => none
    | some cs => some (0, { i with cells := cs, storeNext := false })
  else
    let i := { i with offset := i.offset + 1 }
    if b = 93 then
      let n : Int := i.blockStack.length
      match i.blockStack.getLast? with
      | none => none
      | some popped =>
        let i := { i with blockStack := i.blockStack.dropLast }
        if i.skipBlock = -1 then
          match readCell i.cells i.index with
          | none => none
          | some c => some (0, if c ≠ 0 then { i with offset := popped } else i)
        else if i.skipBlock = n then
          some (0, { i with skipBlock := -1 })
        else
          some (0, i)
    else if b = 91 then
      let i := { i with blockStack := i.blockStack ++ [i.offset - 1] }
      if i.skipBlock = -1 then
        match readCell i.cells i.index with
        | none => none
        | some c =>
          interpretOperator
            (if c = 0 then { i with skipBlock := i.blockStack.length } else i) b
      else
        interpretOperator i b
    else if i.skipBlock > 0 then
      some (0, i)
    else
      interpretOperator i b

/-- The bytes that `fmt.Fprintf(out, "%c", b)` writes for a byte `b`: the UTF-8
encoding of the code point `b`, one byte below 128 and two bytes from 128 on. -/
def fmtC (b : Nat) : List Nat :=
  if b < 128 then [b] else [192 + b / 64, 128 + b % 64]

/-- What `Read` hands back: the count `n`, whether `err` is non-nil, and with
them the interpreter state, the bytes written and the input left unread. -/
structure ReadResult where
  n : Nat
  err : Bool
  state : Interpreter
  out : List Nat
  stdin : List Nat
deriving DecidableEq, Repr

/-- The outcome of running the driver: it returned, it panicked, or the bound
on the number of loop iterations was reached first. -/
inductive Run where
  | returned (r : ReadResult)
  | panicked
  | unfinished
deriving DecidableEq, Repr

/-- The outcome of one pass through the body of the `for` loop of `Read`: the
loop goes on with a new state, input and output; or `ReadByte` failed and `Read`
returns the error; or the pass panicked. -/
inductive Pass where
  | next (i : Interpreter) (stdin out : List Nat)
  | inputError (i : Interpreter) (out : List Nat)
  | crash
deriving DecidableEq, Repr

/-- The body of the `for` loop of `Read`: dispatch `in[i.offset]`, write the
returned byte when `print` is set, and when `storeNext` is set read one byte of
data and hand it to `interpret`. -/
def readBody (inp : List Nat) (i : Interpreter) (stdin out : List Nat) : Pass :=
  match readCell inp i.offset with
  | none => Pass.crash
  | some op =>
    match interpret i op with
    | none => Pass.crash
    | some (b, i) =>
      let out := if i.print then out ++ fmtC b else out
      let i := if i.print then { i with print := false } else i
      if i.storeNext then
        match stdin with
        | [] => Pass.inputError i out
        | c :: rest =>
          match interpret i c with
          | none => Pass.crash
          | some (_, i) => Pass.next i rest out
      else
        Pass.next i stdin out

/-- The `for` loop of `Read`, with `fuel` bounding the number of passes; `n`
counts the passes completed. -/
def readLoop (inp : List Nat) :
    Nat → Interpreter → List Nat → List Nat → Nat → Run
  | 0, _, _, _, _ => Run.unfinished
  | fuel + 1, i, stdin, out, n =>
    if i.offset = inp.length then
      Run.returned ⟨n, false, i, out, stdin⟩
    else
      match readBody inp i stdin out with
      | Pass.crash => Run.panicked
      | Pass.inputError i out => Run.returned ⟨n, true, i, out, []⟩
      | Pass.next i stdin out => readLoop inp fuel i stdin out (n + 1)

/-- The Go method `Read`: reset the offset and run the loop on the program
`inp`, reading data from `stdin`. -/
def Read (i : Interpreter) (inp : List Nat) (stdin : List Nat) (fuel : Nat) : Run :=
  readLoop inp fuel { i with offset := 0 } stdin [] 0

/-- The bytes of a program text (its characters are ASCII, one byte each). -/
def program (s : String) : List Nat :=
  s.toList.map Char.toNat

/-- The program of `TestInterpretHelloWorld`. -/
def helloWorld : List Nat :=
  program "++++++++[>++++[>++>+++>+++>+<<<<-]>+>+>->>+[<]<-]>>.>---.+++++++..+++.>>.<-.<.+++.------.--------.>>+.>++."

/-- The interpreter state with the tape extended by the cells `e`. -/
def Interpreter.extend (i : Interpreter) (e : List Nat) : Interpreter :=
  { i with cells := i.cells ++ e }

/-- Feed the bytes `w` to `interpret` one after the other; the result is the
list of returned bytes and the state after the last step. -/
def feed : Interpreter → List Nat → Option (List Nat × Interpreter)
  | i, [] => some ([], i)
  | i, b :: w =>
    match interpret i b with
    | none => none
    | some (r, i) =>
      match feed i w with
      | none => none
      | some (rs, i) => some (r :: rs, i)

/-- The nesting depth after reading `w` from depth `d`: `[` opens a level, `]`
closes one, and `none` says that a `]` had no level to close. -/
def depthAfter : Nat → List Nat → Option Nat
  | d, [] => some d
  | d, b :: w =>
    if b = 91 then depthAfter (d + 1) w
    else if b = 93 then
      match d with
      | 0 => none
      | d + 1 => depthAfter d w
    else depthAfter d w

/-- A fresh interpreter whose tape has only `k` cells. -/
def shortTape (k : Nat) : Interpreter :=
  { NewInterpreter with cells := List.replicate k 0 }

/-- A byte sequence is bracket-balanced when every `]` closes an earlier `[` of
the sequence and no `[` is left open. -/
def balanced (w : List Nat) : Prop :=
  depthAfter 0 w = some 0

instance (w : List Nat) : Decidable (balanced w) := by
  unfold balanced
  infer_instance

/-- A fresh interpreter whose pointer holds the largest `int`, `2^63 - 1`. -/
def atMaxPointer : Interpreter :=
  { NewInterpreter with index := 9223372036854775807 }

/-- A state whose pointer stands just past the last cell, inside an open loop
(as after `+[` and 30000 times `>`). -/
def pastTheTape : Interpreter :=
  { index := 30000
    offset := 30002
    cells := (List.replicate 30000 0).set 0 1
    blockStack := [1]
    storeNext := false
    print := false
    skipBlock := -1 }

/-- The state of `TestInterpretHelloWorld` before its first `[`: eight `+` have
run, the offset is 8 and cell 0 holds 8. -/
def beforeFirstLoop : Interpreter :=
  { index := 0
    offset := 8
    cells := (List.replicate 30000 0).set 0 8
    blockStack := []
    storeNext := false
    print := false
    skipBlock := -1 }

/-- A state in the middle of a skip that began with the block stack of length 1,
right after the `[` that began it. -/
def skipJustBegun : Interpreter :=
  { index := 0
    offset := 1
    cells := List.replicate 30000 0
    blockStack := [0]
    storeNext := false
    print := false
    skipBlock := 1 }

/-- A state in the same skip, one `[` deeper. -/
def skipNested : Interpreter :=
  { index := 0
    offset := 2
    cells := List.replicate 30000 0
    blockStack := [0, 1]
    storeNext := false
    print := false
    skipBlock := 1 }

/-- The bytes of `w` that `interpret` dispatches as instructions when `w` is fed
from the state `i`; a byte taken by the pending-input path is data and is left
out. -/
def dispatched : Interpreter → List Nat → List Nat
  | _, [] => []
  | i, b :: w =>
    match interpret i b with
    | none => []
    | some (_, j) => if i.storeNext then dispatched j w else b :: dispatched j w

/-- The skip state is well formed: `skipBlock` is `-1` or lies between 1 and
the length of the block stack, and no input is pending while skip is active. -/
def skipWellFormed (i : Interpreter) : Prop :=
  (i.skipBlock = -1 ∨ (1 ≤ i.skipBlock ∧ i.skipBlock ≤ i.blockStack.length)) ∧
    (i.storeNext = true → i.skipBlock = -1)

instance (i : Interpreter) : Decidable (skipWellFormed i) := by
  unfold skipWellFormed
  infer_instance

/-- The state after feeding `+[,` the data byte 93 and `]` to a fresh
interpreter. -/
def afterDataLoop : Interpreter :=
  { index := 0
    offset := 1
    cells := ((List.replicate 30000 0).set 0 1).set 0 93
    blockStack := []
    storeNext := false
    print := false
    skipBlock := -1 }

/-- The configuration (state, data input left, output written) after `k` passes
of the loop of `Read` on the program `inp`; `none` when the loop has ended,
returned an error or panicked before. -/
def passes (inp : List Nat) :
    Nat → Interpreter → List Nat → List Nat → Option (Interpreter × List Nat × List Nat)
  | 0, i, stdin, out => some (i, stdin, out)
  | k + 1, i, stdin, out =>
    if i.offset = inp.length then none
    else
      match readBody inp i stdin out with
      | Pass.next j sin o => passes inp k j sin o
      | _ => none

/-- The program `[-]`. -/
def clearLoop : List Nat := [91, 45, 93]

/-- The state stands at the head of the clear loop: offset 0, empty block stack,
skip inactive and no flag set. -/
def atLoopHead (t : Interpreter) : Prop :=
  t.offset = 0 ∧ t.blockStack = [] ∧ t.skipBlock = -1 ∧ t.storeNext = false ∧ t.print = false

instance (t : Interpreter) : Decidable (atLoopHead t) := by
  unfold atLoopHead
  infer_instance

/-- A state with a two-cell tape whose current cell holds 2. -/
def cellTwo : Interpreter :=
  { shortTape 2 with cells := [2, 0] }

/-- What the straight-line argument keeps of a state at the head of a pass: no
flag is set, the skip state is `-1` or at least 1, and the pointer is inside the
tape. -/
def straightInv (s : Interpreter) : Prop :=
  s.storeNext = false ∧ s.print = false ∧ (s.skipBlock = -1 ∨ 1 ≤ s.skipBlock) ∧
    0 ≤ s.index ∧ s.index < s.cells.length

instance (s : Interpreter) : Decidable (straightInv s) := by
  unfold straightInv
  infer_instance

/-- The cursor invariant of a run over the program `inp`: the offset lies
between 0 and the program length, the block stack is strictly increasing, and
each of its entries is a position before the offset that holds a `[`. -/
def cursorInv (inp : List Nat) (s : Interpreter) : Prop :=
  0 ≤ s.offset ∧ s.offset ≤ inp.length ∧ s.blockStack.Pairwise (fun a b => a < b) ∧
    ∀ e ∈ s.blockStack, 0 ≤ e ∧ e < s.offset ∧ readCell inp e = some 91

instance (inp : List Nat) (s : Interpreter) : Decidable (cursorInv inp s) := by
  unfold cursorInv
  infer_instance

/-- The state after the two passes of `Read` on `+[` from a fresh interpreter. -/
def afterPlusOpen : Interpreter :=
  { index := 0
    offset := 2
    cells := (List.replicate 30000 0).set 0 1
    blockStack := [1]
    storeNext := false
    print := false
    skipBlock := -1 }

/-! ## Tape, frame and fuel lemmas -/

theorem readCell_append {s : List Nat} {i : Int} {v : Nat} (e : List Nat)
    (h : readCell s i = some v) : readCell (s ++ e) i = some v := by
  unfold readCell at h ⊢
  split at h
  · rename_i h0
    rw [if_pos h0]
    have hlt : i.toNat < s.length := by
      by_contra hc
      rw [List.getElem?_eq_none (by omega)] at h
      cases h
    rw [List.getElem?_append_left hlt]
    exact h
  · cases h

theorem storeCell_append {s s' : List Nat} {i : Int} {v : Nat} (e : List Nat)
    (h : storeCell s i v = some s') : storeCell (s ++ e) i v = some (s' ++ e) := by
  unfold storeCell at h ⊢
  cases hr : readCell s i with
  | none => rw [hr] at h; cases h
  | some c =>
    rw [hr] at h
    rw [readCell_append e hr]
    simp only [Option.some.injEq] at h ⊢
    subst h
    have hlt : i.toNat < s.length := by
      unfold readCell at hr
      split at hr
      · by_contra hc
        rw [List.getElem?_eq_none (by omega)] at hr
        cases hr
      · cases hr
    exact List.set_append_left _ v hlt

theorem interpretOperator_frame {s s' : Interpreter} {b r : Nat} (e : List Nat)
    (h : interpretOperator s b = some (r, s')) :
    interpretOperator (s.extend e) b = some (r, s'.extend e) := by
  unfold interpretOperator at h ⊢
  simp only [Interpreter.extend] at *
  split_ifs at h ⊢ <;>
    first
    | (simp only [Option.some.injEq, Prod.mk.injEq] at h; obtain ⟨rfl, rfl⟩ := h; rfl)
    | (cases hr : readCell s.cells s.index with
       | none => simp [hr] at h
       | some c =>
         simp only [hr] at h
         simp only [readCell_append e hr]
         first
         | (simp only [Option.some.injEq, Prod.mk.injEq] at h; obtain ⟨rfl, rfl⟩ := h; rfl)
         | (cases hs : storeCell s.cells s.index ((c + 1) % 256) with
            | none => simp [hs] at h
            | some cs =>
              simp only [hs] at h
              simp only [storeCell_append e hs]
              simp only [Option.some.injEq, Prod.mk.injEq] at h; obtain ⟨rfl, rfl⟩ := h; rfl)
         | (cases hs : storeCell s.cells s.index ((c + 255) % 256) with
            | none => simp [hs] at h
            | some cs =>
              simp only [hs] at h
              simp only [storeCell_append e hs]
              simp only [Option.some.injEq, Prod.mk.injEq] at h; obtain ⟨rfl, rfl⟩ := h; rfl))

theorem interpret_frame {s s' : Interpreter} {b r : Nat} (e : List Nat)
    (h : interpret s b = some (r, s')) :
    interpret (s.extend e) b = some (r, s'.extend e) := by
  unfold interpret at h ⊢
  by_cases hs : s.storeNext = true
  · have hs' : (s.extend e).storeNext = true := hs
    rw [if_pos hs] at h
    rw [if_pos hs']
    cases hst : storeCell s.cells s.index b with
    | none => simp [hst] at h
    | some cs =>
      simp only [hst, Option.some.injEq, Prod.mk.injEq] at h
      obtain ⟨rfl, rfl⟩ := h
      have := storeCell_append e hst
      simp only [Interpreter.extend] at this ⊢
      simp only [this]
  · have hs' : ¬ (s.extend e).storeNext = true := hs
    rw [if_neg hs] at h
    rw [if_neg hs']
    simp only at h ⊢
    by_cases h93 : b = 93
    · rw [if_pos h93] at h
      rw [if_pos h93]
      have hbs : (s.extend e).blockStack = s.blockStack := rfl
      have hsk : (s.extend e).skipBlock = s.skipBlock := rfl
      rw [hbs, hsk]
      cases hl : s.blockStack.getLast? with
      | none => simp [hl] at h
      | some popped =>
        simp only [hl] at h ⊢
        by_cases hk : s.skipBlock = -1
        · rw [if_pos hk] at h
          rw [if_pos hk]
          cases hr : readCell s.cells s.index with
          | none => simp [hr] at h
          | some c =>
            have hr' : readCell (s.extend e).cells (s.extend e).index = some c :=
              readCell_append e hr
            simp only [hr, Option.some.injEq, Prod.mk.injEq] at h
            obtain ⟨rfl, rfl⟩ := h
            simp only [hr']
            by_cases hc : c = 0 <;> simp [hc, Interpreter.extend]
        · rw [if_neg hk] at h
          rw [if_neg hk]
          split_ifs at h ⊢ <;>
            (simp only [Option.some.injEq, Prod.mk.injEq] at h
             obtain ⟨rfl, rfl⟩ := h
             rfl)
    · rw [if_neg h93] at h
      rw [if_neg h93]
      by_cases h91 : b = 91
      · rw [if_pos h91] at h
        rw [if_pos h91]
        have hsk : (s.extend e).skipBlock = s.skipBlock := rfl
        rw [hsk]
        by_cases hk : s.skipBlock = -1
        · rw [if_pos hk] at h
          rw [if_pos hk]
          cases hr : readCell s.cells s.index with
          | none => simp [hr] at h
          | some c =>
            have hr' : readCell (s.extend e).cells (s.extend e).index = some c :=
              readCell_append e hr
            simp only [hr] at h
            simp only [hr']
            have := interpretOperator_frame e h
            by_cases hc : c = 0
            · simp only [hc, if_true] at this ⊢
              exact this
            · simp only [hc, if_false] at this ⊢
              exact this
        · rw [if_neg hk] at h
          rw [if_neg hk]
          exact interpretOperator_frame e h
      · rw [if_neg h91] at h
        rw [if_neg h91]
        have hsk : (s.extend e).skipBlock = s.skipBlock := rfl
        rw [hsk]
        by_cases hk : s.skipBlock > 0
        · rw [if_pos hk] at h
          rw [if_pos hk]
          simp only [Option.some.injEq, Prod.mk.injEq] at h
          obtain ⟨rfl, rfl⟩ := h
          rfl
        · rw [if_neg hk] at h
          rw [if_neg hk]
          exact interpretOperator_frame e h


theorem readBody_frame_next {inp : List Nat} {s i : Interpreter} {stdin out sin o : List Nat}
    (e : List Nat) (hb : readBody inp s stdin out = Pass.next i sin o) :
    readBody inp (s.extend e) stdin out = Pass.next (i.extend e) sin o := by
  unfold readBody at hb ⊢
  have hoff : (s.extend e).offset = s.offset := rfl
  rw [hoff]
  cases hop : readCell inp s.offset with
  | none => simp [hop] at hb
  | some op =>
    simp only [hop] at hb ⊢
    cases hi : interpret s op with
    | none => simp [hi] at hb
    | some p =>
      obtain ⟨b, s1⟩ := p
      simp only [hi] at hb
      simp only [interpret_frame e hi]
      obtain ⟨idx, off, cs, bs, sn, pr, sk⟩ := s1
      cases pr <;> cases sn <;>
        simp only [Interpreter.extend, if_true, if_false, Bool.false_eq_true] at hb ⊢
      all_goals first
        | (simp only [Pass.next.injEq] at hb
           obtain ⟨rfl, rfl, rfl⟩ := hb
           rfl)
        | (cases stdin with
           | nil => simp at hb
           | cons c rest =>
             cases hi2 : interpret (Interpreter.mk idx off cs bs true false sk) c with
             | none => simp [hi2] at hb
             | some q =>
               obtain ⟨b2, s2⟩ := q
               simp only [hi2, Pass.next.injEq] at hb
               obtain ⟨rfl, rfl, rfl⟩ := hb
               have := interpret_frame e hi2
               simp only [Interpreter.extend] at this
               simp only [this])

theorem readBody_frame_inputError {inp : List Nat} {s i : Interpreter} {stdin out o : List Nat}
    (e : List Nat) (hb : readBody inp s stdin out = Pass.inputError i o) :
    readBody inp (s.extend e) stdin out = Pass.inputError (i.extend e) o := by
  unfold readBody at hb ⊢
  have hoff : (s.extend e).offset = s.offset := rfl
  rw [hoff]
  cases hop : readCell inp s.offset with
  | none => simp [hop] at hb
  | some op =>
    simp only [hop] at hb ⊢
    cases hi : interpret s op with
    | none => simp [hi] at hb
    | some p =>
      obtain ⟨b, s1⟩ := p
      simp only [hi] at hb
      simp only [interpret_frame e hi]
      obtain ⟨idx, off, cs, bs, sn, pr, sk⟩ := s1
      cases pr <;> cases sn <;>
        simp only [Interpreter.extend, if_true, if_false, Bool.false_eq_true] at hb ⊢
      all_goals first
        | (cases hb)
        | (cases stdin with
           | nil =>
             simp only [Pass.inputError.injEq] at hb
             obtain ⟨rfl, rfl⟩ := hb
             rfl
           | cons c rest =>
             cases hi2 : interpret (Interpreter.mk idx off cs bs true false sk) c with
             | none => simp [hi2] at hb
             | some q => simp [hi2] at hb)

theorem readLoop_frame (inp e : List Nat) :
    ∀ (fuel : Nat) (s : Interpreter) (stdin out : List Nat) (n : Nat) (r : ReadResult),
      readLoop inp fuel s stdin out n = Run.returned r →
      readLoop inp fuel (s.extend e) stdin out n
        = Run.returned { r with state := r.state.extend e } := by
  intro fuel
  induction fuel with
  | zero => intro s stdin out n r h; simp [readLoop] at h
  | succ fuel ih =>
    intro s stdin out n r h
    unfold readLoop at h ⊢
    have hoff : (s.extend e).offset = s.offset := rfl
    rw [hoff]
    by_cases hend : s.offset = inp.length
    · rw [if_pos hend] at h
      rw [if_pos hend]
      simp only [Run.returned.injEq] at h
      subst h
      rfl
    · rw [if_neg hend] at h
      rw [if_neg hend]
      cases hb : readBody inp s stdin out with
      | crash => simp [hb] at h
      | inputError i o =>
        simp only [hb, Run.returned.injEq] at h
        subst h
        simp only [readBody_frame_inputError e hb]
      | next i sin o =>
        simp only [hb] at h
        simp only [readBody_frame_next e hb]
        exact ih _ _ _ _ _ h

theorem readLoop_fuel (inp : List Nat) (k : Nat) :
    ∀ (fuel : Nat) (s : Interpreter) (stdin out : List Nat) (n : Nat),
      readLoop inp fuel s stdin out n ≠ Run.unfinished →
      readLoop inp (fuel + k) s stdin out n = readLoop inp fuel s stdin out n := by
  intro fuel
  induction fuel with
  | zero => intro s stdin out n h; simp [readLoop] at h
  | succ fuel ih =>
    intro s stdin out n h
    rw [Nat.succ_add]
    simp only [readLoop] at h ⊢
    by_cases hend : s.offset = inp.length
    · simp only [if_pos hend]
    · simp only [if_neg hend] at h ⊢
      cases hb : readBody inp s stdin out with
      | crash => rfl
      | inputError i o => rfl
      | next i sin o =>
        simp only [hb] at h ⊢
        exact ih _ _ _ _ h


theorem newInterpreter_eq_extend (k : Nat) (hk : k ≤ 30000) :
    NewInterpreter = (shortTape k).extend (List.replicate (30000 - k) 0) := by
  simp only [NewInterpreter, shortTape, Interpreter.extend, List.append_replicate_replicate]
  rw [Nat.add_sub_cancel' hk]

/-! ## The Hello World run -/

set_option maxRecDepth 1000000 in
theorem helloWorld_shortTape :
    readLoop helloWorld 970 (shortTape 7) [] [] 0 =
      Run.returned
        { n := 969
          err := false
          state :=
            { index := 6
              offset := 106
              cells := [0, 0, 72, 100, 87, 33, 10]
              blockStack := []
              storeNext := false
              print := false
              skipBlock := -1 }
          out := [72, 101, 108, 108, 111, 32, 87, 111, 114, 108, 100, 33, 10]
          stdin := [] } := by
  decide!

/-- C1: from a fresh interpreter, `Read` on the Hello World program with empty
data input returns (for every bound of at least 970 passes) after 969 passes
with a nil error, and the bytes written are exactly those of the text
"Hello World!" followed by a newline. -/
theorem read_helloWorld (k : Nat) :
    ∃ r, Read NewInterpreter helloWorld [] (970 + k) = Run.returned r ∧
      r.n = 969 ∧ r.err = false ∧
      r.out = [72, 101, 108, 108, 111, 32, 87, 111, 114, 108, 100, 33, 10] ∧
      r.stdin = [] := by
  have hframe := readLoop_frame helloWorld (List.replicate (30000 - 7) 0) 970
    (shortTape 7) [] [] 0 _ helloWorld_shortTape
  have hstart : ({ NewInterpreter with offset := 0 } : Interpreter)
      = (shortTape 7).extend (List.replicate (30000 - 7) 0) :=
    newInterpreter_eq_extend 7 (by decide)
  unfold Read
  rw [hstart, readLoop_fuel _ _ _ _ _ _ _ (by rw [hframe]; exact fun h => Run.noConfusion h),
    hframe]
  exact ⟨_, rfl, rfl, rfl, rfl, rfl⟩

/-! ## Cells -/

theorem readCell_inside {c : List Nat} {i : Int} (h0 : 0 ≤ i) (h1 : i < c.length) :
    ∃ v, readCell c i = some v := by
  have hlt : i.toNat < c.length := by omega
  exact ⟨c.get ⟨i.toNat, hlt⟩, by simp [readCell, h0, List.getElem?_eq_getElem hlt]⟩

theorem readCell_some_inside {c : List Nat} {i : Int} {v : Nat} (h : readCell c i = some v) :
    0 ≤ i ∧ i < c.length := by
  unfold readCell at h
  split at h
  · rename_i h0
    refine ⟨h0, ?_⟩
    by_contra hc
    rw [List.getElem?_eq_none (by omega)] at h
    cases h
  · cases h

theorem storeCell_of_readCell {c : List Nat} {i : Int} {v : Nat} (w : Nat)
    (h : readCell c i = some v) : storeCell c i w = some (c.set i.toNat w) := by
  simp [storeCell, h]

theorem readCell_set_self {c : List Nat} {i : Int} {v : Nat} (w : Nat)
    (h : readCell c i = some v) : readCell (c.set i.toNat w) i = some w := by
  obtain ⟨h0, h1⟩ := readCell_some_inside h
  have hlt : i.toNat < c.length := by omega
  simp [readCell, h0, hlt]

theorem readCell_set_other {c : List Nat} {i j : Int} (w : Nat) (h0 : 0 ≤ i) (hj : j ≠ i) :
    readCell (c.set i.toNat w) j = readCell c j := by
  unfold readCell
  split
  · rename_i hj0
    have hne : i.toNat ≠ j.toNat := by omega
    simp [List.getElem?_set_ne hne]
  · rfl

/-! ## Single steps -/

theorem interpretOperator_open (s : Interpreter) : interpretOperator s 91 = some (0, s) := by
  simp [interpretOperator]

/-- C3: while skip is active (`skipBlock ≥ 1`) and no input is pending, a step on
any byte `b` (the block stack being non-empty when `b` is `]`) returns 0, leaves
the cells, the pointer, the output flag and the pending-input flag as they
were, and moves the offset forward by exactly one. -/
theorem interpret_skip_inert (s : Interpreter) (b : Nat)
    (hskip : 1 ≤ s.skipBlock) (hpend : s.storeNext = false)
    (hstack : b = 93 → s.blockStack ≠ []) :
    ∃ s', interpret s b = some (0, s') ∧ s'.cells = s.cells ∧ s'.index = s.index ∧
      s'.print = s.print ∧ s'.storeNext = s.storeNext ∧ s'.offset = s.offset + 1 := by
  unfold interpret
  simp only [hpend, Bool.false_eq_true, if_false]
  by_cases h93 : b = 93
  · simp only [h93, if_true]
    cases hl : s.blockStack.getLast? with
    | none =>
      rw [List.getLast?_eq_none_iff] at hl
      exact absurd hl (hstack h93)
    | some popped =>
      simp only
      have hne : s.skipBlock ≠ -1 := by omega
      simp only [hne, if_false]
      split_ifs <;> exact ⟨_, rfl, rfl, rfl, rfl, rfl, rfl⟩
  · simp only [h93, if_false]
    by_cases h91 : b = 91
    · have hne : s.skipBlock ≠ -1 := by omega
      simp only [h91, if_true, hne, if_false, interpretOperator_open]
      exact ⟨_, rfl, rfl, rfl, rfl, rfl, rfl⟩
    · have hpos : s.skipBlock > 0 := by omega
      simp only [h91, if_false, hpos, if_true]
      exact ⟨_, rfl, rfl, rfl, rfl, rfl, rfl⟩

theorem interpret_skip_inert_witness :
    ∃ s', interpret { NewInterpreter with skipBlock := 1, blockStack := [0] } 44 = some (0, s') ∧
      s'.cells = NewInterpreter.cells ∧ s'.index = 0 ∧
      s'.print = false ∧ s'.storeNext = false ∧ s'.offset = 0 + 1 :=
  interpret_skip_inert { NewInterpreter with skipBlock := 1, blockStack := [0] } 44
    (by decide) rfl (by decide)

/-- C7: with the pending-input flag set and the pointer inside the tape, a step
on any byte `b` stores `b` in the current cell, clears the flag and returns 0;
the offset, the pointer, the other cells, the block stack, the skip state and
the output flag stay as they were. -/
theorem interpret_pending (s : Interpreter) (b : Nat)
    (hpend : s.storeNext = true) (h0 : 0 ≤ s.index) (h1 : s.index < s.cells.length) :
    ∃ s', interpret s b = some (0, s') ∧
      readCell s'.cells s'.index = some b ∧
      (∀ j, j ≠ s.index → readCell s'.cells j = readCell s.cells j) ∧
      s'.cells.length = s.cells.length ∧
      s'.storeNext = false ∧ s'.offset = s.offset ∧ s'.index = s.index ∧
      s'.blockStack = s.blockStack ∧ s'.skipBlock = s.skipBlock ∧ s'.print = s.print := by
  obtain ⟨v, hv⟩ := readCell_inside h0 h1
  refine ⟨{ s with cells := s.cells.set s.index.toNat b, storeNext := false }, ?_, ?_, ?_, ?_,
    rfl, rfl, rfl, rfl, rfl, rfl⟩
  · simp [interpret, hpend, storeCell_of_readCell b hv]
  · exact readCell_set_self b hv
  · intro j hj
    exact readCell_set_other b h0 hj
  · simp

theorem interpret_pending_witness :
    ∃ s', interpret { shortTape 3 with storeNext := true, index := 1 } 91 = some (0, s') ∧
      readCell s'.cells s'.index = some 91 ∧
      (∀ j, j ≠ 1 → readCell s'.cells j = readCell (shortTape 3).cells j) ∧
      s'.cells.length = 3 ∧
      s'.storeNext = false ∧ s'.offset = 0 ∧ s'.index = 1 ∧
      s'.blockStack = [] ∧ s'.skipBlock = -1 ∧ s'.print = false :=
  interpret_pending { shortTape 3 with storeNext := true, index := 1 } 91 rfl
    (by decide) (by decide)

theorem readCell_outside {c : List Nat} {i : Int} (h : (c.length : Int) ≤ i) :
    readCell c i = none := by
  unfold readCell
  split
  · exact List.getElem?_eq_none (by omega)
  · rfl

/-- C5: from a state with skip inactive, no pending input and the pointer
inside the tape, the steps `,`, then any byte `b`, then `.` succeed; the last
one returns exactly `b` with the output flag set, the current cell equal to
`b`, the pending-input flag cleared and the pointer where it was. -/
theorem interpret_roundTrip (s : Interpreter) (b : Nat)
    (hskip : s.skipBlock = -1) (hpend : s.storeNext = false)
    (h0 : 0 ≤ s.index) (h1 : s.index < s.cells.length) :
    ∃ s1 s2 s3, interpret s 44 = some (0, s1) ∧ interpret s1 b = some (0, s2) ∧
      interpret s2 46 = some (b, s3) ∧ s3.print = true ∧
      readCell s3.cells s3.index = some b ∧ s3.storeNext = false ∧
      s3.index = s.index := by
  obtain ⟨v, hv⟩ := readCell_inside h0 h1
  have hb := readCell_set_self b hv
  refine ⟨{ s with offset := s.offset + 1, storeNext := true },
    { s with offset := s.offset + 1, cells := s.cells.set s.index.toNat b },
    { s with offset := s.offset + 1 + 1, cells := s.cells.set s.index.toNat b, print := true },
    ?_, ?_, ?_, rfl, hb, hpend, rfl⟩
  · simp [interpret, interpretOperator, hpend, hskip]
  · simp [interpret, storeCell_of_readCell b hv, hpend]
  · simp [interpret, interpretOperator, hpend, hskip, hb]

theorem interpret_roundTrip_witness :
    ∃ s1 s2 s3, interpret (shortTape 2) 44 = some (0, s1) ∧ interpret s1 93 = some (0, s2) ∧
      interpret s2 46 = some (93, s3) ∧ s3.print = true ∧
      readCell s3.cells s3.index = some 93 ∧ s3.storeNext = false ∧
      s3.index = (shortTape 2).index :=
  interpret_roundTrip (shortTape 2) 93 rfl rfl (by decide) (by decide)

theorem interpret_close_outside (s : Interpreter) (hpend : s.storeNext = false)
    (hskip : s.skipBlock = -1) (hcell : readCell s.cells s.index = none) :
    interpret s 93 = none := by
  unfold interpret
  simp only [hpend, hskip, hcell, Bool.false_eq_true, if_false, if_true]
  cases s.blockStack.getLast? <;> rfl

/-- C8, as stated, fails: with no pending input, skip inactive and the pointer
past the last cell, `]` panics on reading the current cell although the block
stack is not empty. -/
theorem closeLoop_fails_past_the_tape :
    pastTheTape.storeNext = false ∧ pastTheTape.blockStack ≠ [] ∧
      interpret pastTheTape 93 = none := by
  refine ⟨rfl, by decide, ?_⟩
  have hcell : readCell pastTheTape.cells pastTheTape.index = none :=
    readCell_outside (by simp only [pastTheTape, List.length_set, List.length_replicate]; decide)
  exact interpret_close_outside pastTheTape rfl rfl hcell

/-- C8, amended: with no pending input, and the pointer inside the tape whenever
skip is inactive, `]` fails exactly when the block stack is empty; with a
non-empty block stack it succeeds, returns 0 and removes exactly the last
element of the block stack. -/
theorem closeLoop_underflow (s : Interpreter) (hpend : s.storeNext = false)
    (hin : s.skipBlock = -1 → 0 ≤ s.index ∧ s.index < s.cells.length) :
    (interpret s 93 = none ↔ s.blockStack = []) ∧
      (s.blockStack ≠ [] →
        ∃ s' popped, interpret s 93 = some (0, s') ∧
          s.blockStack = s'.blockStack ++ [popped]) := by
  have hsucc : s.blockStack ≠ [] →
      ∃ s' popped, interpret s 93 = some (0, s') ∧
        s.blockStack = s'.blockStack ++ [popped] := by
    intro hne
    unfold interpret
    simp only [hpend, Bool.false_eq_true, if_false, if_true]
    cases hl : s.blockStack.getLast? with
    | none =>
      rw [List.getLast?_eq_none_iff] at hl
      exact absurd hl hne
    | some popped =>
      have hst : s.blockStack = s.blockStack.dropLast ++ [popped] :=
        (List.dropLast_append_getLast? popped hl).symm
      simp only
      by_cases hk : s.skipBlock = -1
      · obtain ⟨h0, h1⟩ := hin hk
        obtain ⟨v, hv⟩ := readCell_inside h0 h1
        simp only [hk, if_true, hv]
        by_cases hv0 : v = 0
        · exact ⟨{ s with offset := s.offset + 1, blockStack := s.blockStack.dropLast },
            popped, by simp [hv0, hpend, hk], hst⟩
        · exact ⟨{ s with offset := popped, blockStack := s.blockStack.dropLast },
            popped, by simp [hv0, hpend, hk], hst⟩
      · simp only [hk, if_false]
        split_ifs
        · exact ⟨_, popped, rfl, hst⟩
        · exact ⟨_, popped, rfl, hst⟩
  refine ⟨⟨?_, ?_⟩, hsucc⟩
  · intro hnone
    by_contra hne
    obtain ⟨s', popped, hs, _⟩ := hsucc hne
    rw [hs] at hnone
    cases hnone
  · intro hempty
    simp [interpret, hpend, hempty]

theorem closeLoop_underflow_witness :
    (interpret { shortTape 2 with blockStack := [4] } 93 = none ↔ [(4 : Int)] = []) ∧
      ([(4 : Int)] ≠ [] →
        ∃ s' popped, interpret { shortTape 2 with blockStack := [4] } 93 = some (0, s') ∧
          [(4 : Int)] = s'.blockStack ++ [popped]) :=
  closeLoop_underflow { shortTape 2 with blockStack := [4] } rfl (fun _ => by decide)

theorem wrapInt_of_range {x : Int} (hlo : -9223372036854775808 ≤ x)
    (hhi : x < 9223372036854775808) : wrapInt x = x := by
  unfold wrapInt
  omega

theorem interpret_right_wraps {s : Interpreter} (hskip : s.skipBlock = -1)
    (hpend : s.storeNext = false) :
    interpret s 62
      = some (0, { s with offset := s.offset + 1, index := wrapInt (s.index + 1) }) := by
  simp [interpret, interpretOperator, hskip, hpend]

theorem interpretOperator_index {s s' : Interpreter} {b r : Nat}
    (h : interpretOperator s b = some (r, s')) :
    s'.index = s.index ∨ s'.index = wrapInt (s.index + 1) ∨
      (0 < s.index ∧ s'.index = s.index - 1) := by
  unfold interpretOperator at h
  split_ifs at h with h62 h60 hpos h43 h45 h46 h44
  all_goals first
    | (simp only [Option.some.injEq, Prod.mk.injEq] at h
       obtain ⟨_, rfl⟩ := h
       first
         | exact Or.inl rfl
         | exact Or.inr (Or.inl rfl)
         | exact Or.inr (Or.inr ⟨hpos, rfl⟩))
    | (cases hr : readCell s.cells s.index with
       | none => simp [hr] at h
       | some c =>
         simp only [hr] at h
         first
           | (simp only [Option.some.injEq, Prod.mk.injEq] at h
              obtain ⟨_, rfl⟩ := h
              exact Or.inl rfl)
           | (simp only [storeCell_of_readCell _ hr, Option.some.injEq, Prod.mk.injEq] at h
              obtain ⟨_, rfl⟩ := h
              exact Or.inl rfl))

theorem interpret_index {s s' : Interpreter} {b r : Nat}
    (h : interpret s b = some (r, s')) :
    s'.index = s.index ∨ s'.index = wrapInt (s.index + 1) ∨
      (0 < s.index ∧ s'.index = s.index - 1) := by
  unfold interpret at h
  by_cases hst : s.storeNext = true
  · rw [if_pos hst] at h
    cases hs : storeCell s.cells s.index b with
    | none => simp [hs] at h
    | some cs =>
      simp only [hs, Option.some.injEq, Prod.mk.injEq] at h
      obtain ⟨_, rfl⟩ := h
      exact Or.inl rfl
  · rw [if_neg hst] at h
    simp only at h
    by_cases h93 : b = 93
    · rw [if_pos h93] at h
      cases hl : s.blockStack.getLast? with
      | none => simp [hl] at h
      | some popped =>
        simp only [hl] at h
        by_cases hk : s.skipBlock = -1
        · rw [if_pos hk] at h
          cases hr : readCell s.cells s.index with
          | none => simp [hr] at h
          | some c =>
            simp only [hr, Option.some.injEq, Prod.mk.injEq] at h
            obtain ⟨_, rfl⟩ := h
            split_ifs <;> exact Or.inl rfl
        · rw [if_neg hk] at h
          split_ifs at h <;>
            (simp only [Option.some.injEq, Prod.mk.injEq] at h
             obtain ⟨_, rfl⟩ := h
             exact Or.inl rfl)
    · rw [if_neg h93] at h
      by_cases h91 : b = 91
      · rw [if_pos h91] at h
        by_cases hk : s.skipBlock = -1
        · rw [if_pos hk] at h
          cases hr : readCell s.cells s.index with
          | none => simp [hr] at h
          | some c =>
            simp only [hr] at h
            have := interpretOperator_index h
            split_ifs at this <;> exact this
        · rw [if_neg hk] at h
          have hx := interpretOperator_index h
          exact hx
      · rw [if_neg h91] at h
        by_cases hk : s.skipBlock > 0
        · rw [if_pos hk] at h
          simp only [Option.some.injEq, Prod.mk.injEq] at h
          obtain ⟨_, rfl⟩ := h
          exact Or.inl rfl
        · rw [if_neg hk] at h
          have hx := interpretOperator_index h
          exact hx

/-- C10, as stated, fails in its last part: with the pointer at the largest
`int`, which is non-negative, the step `>` succeeds and the increment wraps, so
that the pointer is `-2^63` after the step. -/
theorem right_wraps_at_max_pointer :
    atMaxPointer.skipBlock = -1 ∧ atMaxPointer.storeNext = false ∧ 0 ≤ atMaxPointer.index ∧
      ∃ s', interpret atMaxPointer 62 = some (0, s') ∧
        s'.index = -9223372036854775808 ∧ s'.index < 0 := by
  refine ⟨rfl, rfl, by decide, _, interpret_right_wraps rfl rfl, ?_, ?_⟩
  · show wrapInt (9223372036854775807 + 1) = -9223372036854775808
    decide
  · show wrapInt (9223372036854775807 + 1) < 0
    decide

/-- C10, amended: with skip inactive and no pending input, `<` returns 0, moves
the pointer from `p` to `p - 1` when `p > 0`, leaves it at 0 when `p = 0`, and
changes no cell; and no successful step on any byte makes negative a pointer
that is non-negative and below the largest `int`, `2^63 - 1`. -/
theorem interpret_left_clamps :
    (∀ s : Interpreter, s.skipBlock = -1 → s.storeNext = false →
      ∃ s', interpret s 60 = some (0, s') ∧ s'.cells = s.cells ∧
        (0 < s.index → s'.index = s.index - 1) ∧ (s.index = 0 → s'.index = 0)) ∧
    (∀ (s s' : Interpreter) (b r : Nat), interpret s b = some (r, s') →
      0 ≤ s.index → s.index < 9223372036854775807 → 0 ≤ s'.index) := by
  constructor
  · intro s hskip hpend
    by_cases hpos : 0 < s.index
    · refine ⟨{ s with offset := s.offset + 1, index := s.index - 1 }, ?_, rfl,
        fun _ => rfl, fun h0 => by omega⟩
      simp [interpret, interpretOperator, hskip, hpend, hpos]
    · refine ⟨{ s with offset := s.offset + 1 }, ?_, rfl, fun h => absurd h hpos, fun h0 => h0⟩
      simp [interpret, interpretOperator, hskip, hpend, hpos]
  · intro s s' b r h h0 hmax
    rcases interpret_index h with hi | hi | ⟨hp, hi⟩
    · omega
    · rw [hi, wrapInt_of_range (by omega) (by omega)]
      omega
    · omega

theorem interpret_left_clamps_witness :
    (∃ s', interpret NewInterpreter 60 = some (0, s') ∧ s'.cells = NewInterpreter.cells ∧
        (0 < NewInterpreter.index → s'.index = NewInterpreter.index - 1) ∧
        (NewInterpreter.index = 0 → s'.index = 0)) ∧
      (0 : Int) ≤
        ({ NewInterpreter with offset := 1, index := wrapInt (0 + 1) } : Interpreter).index :=
  ⟨interpret_left_clamps.1 NewInterpreter rfl rfl,
    interpret_left_clamps.2 NewInterpreter
      { NewInterpreter with offset := 1, index := wrapInt (0 + 1) } 62 0
      (interpret_right_wraps rfl rfl) (by decide) (by decide)⟩

/-! ## Sequences of steps -/

theorem feed_cons_some {s s1 s2 : Interpreter} {b r : Nat} {w rs : List Nat}
    (h1 : interpret s b = some (r, s1)) (h2 : feed s1 w = some (rs, s2)) :
    feed s (b :: w) = some (r :: rs, s2) := by
  simp [feed, h1, h2]

theorem interpret_plus {s : Interpreter} {v : Nat} (hskip : s.skipBlock = -1)
    (hpend : s.storeNext = false) (hcell : readCell s.cells s.index = some v) :
    interpret s 43 = some (0, { s with offset := s.offset + 1,
                                       cells := s.cells.set s.index.toNat ((v + 1) % 256) }) := by
  simp [interpret, interpretOperator, hskip, hpend, hcell, storeCell_of_readCell _ hcell]

theorem interpret_minus {s : Interpreter} {v : Nat} (hskip : s.skipBlock = -1)
    (hpend : s.storeNext = false) (hcell : readCell s.cells s.index = some v) :
    interpret s 45 = some (0, { s with offset := s.offset + 1,
                                       cells := s.cells.set s.index.toNat ((v + 255) % 256) }) := by
  simp [interpret, interpretOperator, hskip, hpend, hcell, storeCell_of_readCell _ hcell]

/-- C4: from a state with skip inactive, no pending input and the pointer on a
cell holding the byte `v`, a sequence of `+` and `-` bytes, in any order, with
`p` times `+` and `m` times `-`, runs without failure and leaves
`(v + p - m) mod 256` in the current cell; no other cell, nor the length of the
tape, nor the pointer changes. -/
theorem feed_cell_arith (w : List Nat) (hw : ∀ b ∈ w, b = 43 ∨ b = 45) :
    ∀ (s : Interpreter) (v : Nat), s.skipBlock = -1 → s.storeNext = false →
      readCell s.cells s.index = some v → v < 256 →
      ∃ rs s', feed s w = some (rs, s') ∧
        readCell s'.cells s'.index
          = some (((v : Int) + (w.count 43 : Int) - (w.count 45 : Int)) % 256).toNat ∧
        (∀ j, j ≠ s.index → readCell s'.cells j = readCell s.cells j) ∧
        s'.cells.length = s.cells.length ∧ s'.index = s.index := by
  induction w with
  | nil =>
    intro s v _ _ hcell hv
    refine ⟨[], s, rfl, ?_, fun _ _ => rfl, rfl, rfl⟩
    rw [hcell]
    congr 1
    simp only [List.count_nil, Nat.cast_zero]
    omega
  | cons b w ih =>
    intro s v hskip hpend hcell hv
    have hw' : ∀ b ∈ w, b = 43 ∨ b = 45 := fun x hx => hw x (List.mem_cons_of_mem _ hx)
    obtain ⟨h0, _⟩ := readCell_some_inside hcell
    rcases hw b (List.mem_cons_self _ _) with hb | hb
    · subst hb
      have hstep := interpret_plus hskip hpend hcell
      obtain ⟨rs, s', hfeed, hval, hother, hlen, hidx⟩ :=
        ih hw'
          { s with offset := s.offset + 1, cells := s.cells.set s.index.toNat ((v + 1) % 256) }
          ((v + 1) % 256) hskip hpend (readCell_set_self _ hcell) (Nat.mod_lt _ (by decide))
      refine ⟨0 :: rs, s', feed_cons_some hstep hfeed, ?_, ?_, ?_, hidx⟩
      · rw [hval]
        congr 1
        simp only [List.count_cons_self, List.count_cons_of_ne (show (45 : Nat) ≠ 43 by decide)]
        push_cast
        omega
      · intro j hj
        rw [hother j hj]
        exact readCell_set_other _ h0 hj
      · simp [hlen]
    · subst hb
      have hstep := interpret_minus hskip hpend hcell
      obtain ⟨rs, s', hfeed, hval, hother, hlen, hidx⟩ :=
        ih hw'
          { s with offset := s.offset + 1, cells := s.cells.set s.index.toNat ((v + 255) % 256) }
          ((v + 255) % 256) hskip hpend (readCell_set_self _ hcell)
          (Nat.mod_lt _ (by decide))
      refine ⟨0 :: rs, s', feed_cons_some hstep hfeed, ?_, ?_, ?_, hidx⟩
      · rw [hval]
        congr 1
        simp only [List.count_cons_self, List.count_cons_of_ne (show (43 : Nat) ≠ 45 by decide)]
        push_cast
        omega
      · intro j hj
        rw [hother j hj]
        exact readCell_set_other _ h0 hj
      · simp [hlen]

theorem feed_cell_arith_witness :
    ∃ rs s', feed (shortTape 2) [45, 43, 45] = some (rs, s') ∧
      readCell s'.cells s'.index
        = some (((0 : Int) + (([45, 43, 45] : List Nat).count 43 : Int)
            - (([45, 43, 45] : List Nat).count 45 : Int)) % 256).toNat ∧
      (∀ j, j ≠ (shortTape 2).index → readCell s'.cells j = readCell (shortTape 2).cells j) ∧
      s'.cells.length = (shortTape 2).cells.length ∧ s'.index = (shortTape 2).index :=
  feed_cell_arith [45, 43, 45] (by decide) (shortTape 2) 0 rfl rfl rfl (by decide)

/-! ## Skipping a loop -/

theorem feed_append {s s1 s2 : Interpreter} {u v rs1 rs2 : List Nat}
    (h1 : feed s u = some (rs1, s1)) (h2 : feed s1 v = some (rs2, s2)) :
    feed s (u ++ v) = some (rs1 ++ rs2, s2) := by
  induction u generalizing s rs1 with
  | nil =>
    simp only [feed, Option.some.injEq, Prod.mk.injEq] at h1
    obtain ⟨rfl, rfl⟩ := h1
    simpa using h2
  | cons b u ih =>
    simp only [feed] at h1
    cases hi : interpret s b with
    | none => simp [hi] at h1
    | some p =>
      obtain ⟨r, s0⟩ := p
      simp only [hi] at h1
      cases hf : feed s0 u with
      | none => simp [hf] at h1
      | some q =>
        obtain ⟨rs0, s0'⟩ := q
        simp only [hf, Option.some.injEq, Prod.mk.injEq] at h1
        obtain ⟨rfl, rfl⟩ := h1
        exact feed_cons_some hi (ih hf)

theorem depthAfter_append (u v : List Nat) :
    ∀ d, depthAfter d (u ++ v) = (depthAfter d u).bind fun e => depthAfter e v := by
  induction u with
  | nil => intro d; rfl
  | cons b u ih =>
    intro d
    simp only [List.cons_append, depthAfter]
    split_ifs
    · exact ih _
    · cases d with
      | zero => rfl
      | succ d => exact ih _
    · exact ih _

theorem interpret_skip_open {s : Interpreter} (hpend : s.storeNext = false)
    (hskip : 1 ≤ s.skipBlock) :
    interpret s 91
      = some (0, { s with offset := s.offset + 1, blockStack := s.blockStack ++ [s.offset] }) := by
  have hne : s.skipBlock ≠ -1 := by omega
  simp [interpret, hpend, hne, interpretOperator_open]

theorem interpret_skip_close {s : Interpreter} {st : List Int} {x : Int}
    (hpend : s.storeNext = false) (hskip : 1 ≤ s.skipBlock) (hst : s.blockStack = st ++ [x])
    (hne : s.skipBlock ≠ st.length + 1) :
    interpret s 93 = some (0, { s with offset := s.offset + 1, blockStack := st }) := by
  have hne1 : s.skipBlock ≠ -1 := by omega
  simp [interpret, hpend, hne1, hst, hne]

theorem interpret_skip_close_last {s : Interpreter} {st : List Int} {x : Int}
    (hpend : s.storeNext = false) (hst : s.blockStack = st ++ [x])
    (heq : s.skipBlock = st.length + 1) :
    interpret s 93
      = some (0, { s with offset := s.offset + 1, blockStack := st, skipBlock := -1 }) := by
  have hne1 : ((st.length : Int) + 1 = -1) = False := by
    apply eq_false
    omega
  simp [interpret, hpend, hst, heq, hne1]

theorem interpret_skip_other {s : Interpreter} {b : Nat} (hpend : s.storeNext = false)
    (hskip : 1 ≤ s.skipBlock) (h91 : b ≠ 91) (h93 : b ≠ 93) :
    interpret s b = some (0, { s with offset := s.offset + 1 }) := by
  have hpos : s.skipBlock > 0 := by omega
  simp [interpret, hpend, h91, h93, hpos]

theorem interpret_open_zero {s : Interpreter} (hpend : s.storeNext = false)
    (hskip : s.skipBlock = -1) (hcell : readCell s.cells s.index = some 0) :
    interpret s 91
      = some (0, { s with offset := s.offset + 1, blockStack := s.blockStack ++ [s.offset],
                          skipBlock := s.blockStack.length + 1 }) := by
  simp [interpret, hpend, hskip, hcell, interpretOperator_open]

theorem feed_skip (base : List Int) (hbase : 1 ≤ base.length) (w : List Nat) :
    ∀ (d e : Nat) (s : Interpreter) (extra : List Int),
      depthAfter d w = some e → s.storeNext = false → s.skipBlock = base.length →
      s.blockStack = base ++ extra → extra.length = d →
      ∃ s' extra', feed s w = some (List.replicate w.length 0, s') ∧
        s'.cells = s.cells ∧ s'.index = s.index ∧ s'.print = s.print ∧
        s'.storeNext = false ∧ s'.offset = s.offset + w.length ∧
        s'.skipBlock = s.skipBlock ∧ s'.blockStack = base ++ extra' ∧ extra'.length = e := by
  induction w with
  | nil =>
    intro d e s extra hd hpend _ hst hlen
    simp only [depthAfter, Option.some.injEq] at hd
    subst hd
    exact ⟨s, extra, rfl, rfl, rfl, rfl, hpend, by simp, rfl, hst, hlen⟩
  | cons b w ih =>
    intro d e s extra hd hpend hskip hst hlen
    have hskip1 : 1 ≤ s.skipBlock := by omega
    simp only [depthAfter] at hd
    by_cases h91 : b = 91
    · subst h91
      simp only [if_true] at hd
      have hstep := interpret_skip_open hpend hskip1
      obtain ⟨s', extra', hfeed, hc, hi, hp, hsn, hoff, hsk, hbs, hl⟩ :=
        ih (d + 1) e { s with offset := s.offset + 1, blockStack := s.blockStack ++ [s.offset] }
          (extra ++ [s.offset]) hd hpend hskip (by simp [hst]) (by simp [hlen])
      refine ⟨s', extra', ?_, hc, hi, hp, hsn, ?_, hsk, hbs, hl⟩
      · rw [feed_cons_some hstep hfeed]
        rfl
      · rw [hoff]
        simp only [List.length_cons]
        push_cast
        ring
    · by_cases h93 : b = 93
      · subst h93
        simp only [h91, if_false, if_true] at hd
        cases d with
        | zero => simp at hd
        | succ d0 =>
          simp only at hd
          have hne : extra ≠ [] := by
            intro h
            rw [h] at hlen
            simp at hlen
          obtain ⟨e0, x, rfl⟩ : ∃ e0 x, extra = e0 ++ [x] :=
            ⟨extra.dropLast, extra.getLast hne, (List.dropLast_append_getLast hne).symm⟩
          have hst' : s.blockStack = (base ++ e0) ++ [x] := by rw [hst, List.append_assoc]
          have hlen0 : e0.length = d0 := by simpa using hlen
          have hstep := interpret_skip_close hpend hskip1 hst'
            (by rw [hskip]; simp only [List.length_append]; push_cast; omega)
          obtain ⟨s', extra', hfeed, hc, hi, hp, hsn, hoff, hsk, hbs, hl⟩ :=
            ih d0 e { s with offset := s.offset + 1, blockStack := base ++ e0 }
              e0 hd hpend hskip rfl hlen0
          refine ⟨s', extra', ?_, hc, hi, hp, hsn, ?_, hsk, hbs, hl⟩
          · rw [feed_cons_some hstep hfeed]
            rfl
          · rw [hoff]
            simp only [List.length_cons]
            push_cast
            ring
      · simp only [h91, h93, if_false] at hd
        have hstep := interpret_skip_other hpend hskip1 h91 h93
        obtain ⟨s', extra', hfeed, hc, hi, hp, hsn, hoff, hsk, hbs, hl⟩ :=
          ih d e { s with offset := s.offset + 1 } extra hd hpend hskip hst hlen
        refine ⟨s', extra', ?_, hc, hi, hp, hsn, ?_, hsk, hbs, hl⟩
        · rw [feed_cons_some hstep hfeed]
          rfl
        · rw [hoff]
          simp only [List.length_cons]
          push_cast
          ring

/-- C2: from a state with skip inactive, no pending input and the current cell
equal to zero, feed the bytes of `[` `B` `]` for a bracket-balanced `B`.  After
each of the first `k` steps (`k ≤ len(B) + 2`) every step so far has returned 0,
the output flag, the cells and the pointer are as at the start, no input is
pending, and the offset has advanced by exactly `k`; skip is active after every
step but the last, and after the last one, the matching `]`, skip is inactive
and the block stack is the initial one. -/
theorem feed_skipped_loop (s : Interpreter) (B : List Nat) (hbal : balanced B)
    (hskip : s.skipBlock = -1) (hpend : s.storeNext = false)
    (hcell : readCell s.cells s.index = some 0) :
    ∀ k, k ≤ B.length + 2 →
      ∃ s', feed s ((91 :: (B ++ [93])).take k) = some (List.replicate k 0, s') ∧
        s'.print = s.print ∧ s'.storeNext = false ∧ s'.cells = s.cells ∧
        s'.index = s.index ∧ s'.offset = s.offset + k ∧
        (0 < k → k < B.length + 2 → 0 < s'.skipBlock) ∧
        (k = B.length + 2 → s'.skipBlock = -1 ∧ s'.blockStack = s.blockStack) := by
  intro k hk
  cases k with
  | zero =>
    exact ⟨s, rfl, rfl, hpend, rfl, rfl, by simp, fun h => absurd h (by decide),
      fun h => by omega⟩
  | succ j =>
    have hopen := interpret_open_zero hpend hskip hcell
    have hbase : 1 ≤ (s.blockStack ++ [s.offset]).length := by simp
    have hsk1 : (s.blockStack.length : Int) + 1 = ((s.blockStack ++ [s.offset]).length : Int) := by
      simp
    by_cases hj : j ≤ B.length
    · -- the opening bracket and the first `j` bytes of the body
      have htake : (91 :: (B ++ [93])).take (j + 1) = 91 :: B.take j := by
        rw [List.take_succ_cons, List.take_append_of_le_length hj]
      have hsplit : depthAfter 0 (B.take j ++ B.drop j) = some 0 := by
        rw [List.take_append_drop]
        exact hbal
      rw [depthAfter_append] at hsplit
      cases hd : depthAfter 0 (B.take j) with
      | none => simp [hd] at hsplit
      | some e =>
        obtain ⟨s', extra', hfeed, hc, hi, hp, hsn, hoff, hsk, _, _⟩ :=
          feed_skip (s.blockStack ++ [s.offset]) hbase (B.take j) 0 e
            { s with offset := s.offset + 1, blockStack := s.blockStack ++ [s.offset],
                     skipBlock := s.blockStack.length + 1 }
            [] hd hpend hsk1 (by simp) rfl
        refine ⟨s', ?_, hp, hsn, hc, hi, ?_, ?_, ?_⟩
        · rw [htake, feed_cons_some hopen hfeed, List.length_take, Nat.min_eq_left hj]
          rfl
        · rw [hoff, List.length_take, Nat.min_eq_left hj]
          push_cast
          ring
        · intro _ _
          rw [hsk]
          show (0 : Int) < s.blockStack.length + 1
          omega
        · intro h
          omega
    · -- the whole of `[` `B` `]`
      have hjeq : j = B.length + 1 := by omega
      subst hjeq
      have htake : (91 :: (B ++ [93])).take (B.length + 1 + 1) = 91 :: (B ++ [93]) := by
        apply List.take_of_length_le
        simp
      obtain ⟨s1, extra', hfeed, hc, hi, hp, hsn, hoff, hsk, hbs, hl⟩ :=
        feed_skip (s.blockStack ++ [s.offset]) hbase B 0 0
          { s with offset := s.offset + 1, blockStack := s.blockStack ++ [s.offset],
                   skipBlock := s.blockStack.length + 1 }
          [] hbal hpend hsk1 (by simp) rfl
      have hnil : extra' = [] := List.length_eq_zero.mp hl
      subst hnil
      have hclose := @interpret_skip_close_last s1 s.blockStack s.offset
        hsn (by rw [hbs]; simp) (by rw [hsk])
      have hlast : feed s1 [93] = some ([0], _) := feed_cons_some hclose rfl
      have hall := feed_cons_some hopen (feed_append hfeed hlast)
      refine ⟨{ s1 with offset := s1.offset + 1, blockStack := s.blockStack, skipBlock := -1 },
        ?_, hp, hsn, hc, hi, ?_, ?_, ?_⟩
      · rw [htake, hall, ← List.replicate_succ', ← List.replicate_succ]
      · show s1.offset + 1 = _
        rw [hoff]
        push_cast
        ring
      · intro _ h
        omega
      · intro _
        exact ⟨rfl, rfl⟩

theorem feed_skipped_loop_witness :
    ∃ s', feed (shortTape 2) ((91 :: ([44, 91, 46, 93, 43] ++ [93])).take 7)
        = some (List.replicate 7 0, s') ∧
      s'.print = (shortTape 2).print ∧ s'.storeNext = false ∧
      s'.cells = (shortTape 2).cells ∧ s'.index = (shortTape 2).index ∧
      s'.offset = (shortTape 2).offset + (7 : Nat) ∧
      (0 < 7 → 7 < [44, 91, 46, 93, 43].length + 2 → 0 < s'.skipBlock) ∧
      (7 = [44, 91, 46, 93, 43].length + 2 →
        s'.skipBlock = -1 ∧ s'.blockStack = (shortTape 2).blockStack) :=
  feed_skipped_loop (shortTape 2) [44, 91, 46, 93, 43] (by decide) rfl rfl rfl 7 (by decide)

/-! ## The driver -/

theorem readLoop_succ (inp : List Nat) (fuel : Nat) (s : Interpreter) (stdin out : List Nat)
    (n : Nat) :
    readLoop inp (fuel + 1) s stdin out n =
      if s.offset = inp.length then Run.returned ⟨n, false, s, out, stdin⟩
      else
        match readBody inp s stdin out with
        | Pass.crash => Run.panicked
        | Pass.inputError i o => Run.returned ⟨n, true, i, o, []⟩
        | Pass.next i sin o => readLoop inp fuel i sin o (n + 1) := rfl

theorem readLoop_next {inp : List Nat} {s i : Interpreter} {stdin out sin o : List Nat}
    {op : Nat} (fuel n : Nat) (hop : readCell inp s.offset = some op)
    (hb : readBody inp s stdin out = Pass.next i sin o) :
    readLoop inp (fuel + 1) s stdin out n = readLoop inp fuel i sin o (n + 1) := by
  obtain ⟨_, hlt⟩ := readCell_some_inside hop
  rw [readLoop_succ, if_neg (by omega), hb]

theorem readLoop_done {inp : List Nat} {s : Interpreter} (fuel n : Nat) (stdin out : List Nat)
    (hend : s.offset = inp.length) :
    readLoop inp (fuel + 1) s stdin out n = Run.returned ⟨n, false, s, out, stdin⟩ := by
  rw [readLoop_succ, if_pos hend]

theorem interpret_comma {s : Interpreter} (hskip : s.skipBlock = -1)
    (hpend : s.storeNext = false) :
    interpret s 44 = some (0, { s with offset := s.offset + 1, storeNext := true }) := by
  simp [interpret, interpretOperator, hskip, hpend]

theorem interpret_dot {s : Interpreter} {v : Nat} (hskip : s.skipBlock = -1)
    (hpend : s.storeNext = false) (hcell : readCell s.cells s.index = some v) :
    interpret s 46 = some (v, { s with offset := s.offset + 1, print := true }) := by
  simp [interpret, interpretOperator, hskip, hpend, hcell]

theorem interpret_store {s : Interpreter} {v : Nat} (b : Nat) (hpend : s.storeNext = true)
    (hcell : readCell s.cells s.index = some v) :
    interpret s b
      = some (0, { s with cells := s.cells.set s.index.toNat b, storeNext := false }) := by
  simp [interpret, hpend, storeCell_of_readCell b hcell]

theorem readBody_comma {inp : List Nat} {s : Interpreter} {v : Nat} (c : Nat)
    (rest out : List Nat) (hop : readCell inp s.offset = some 44) (hskip : s.skipBlock = -1)
    (hpend : s.storeNext = false) (hprint : s.print = false)
    (hcell : readCell s.cells s.index = some v) :
    readBody inp s (c :: rest) out
      = Pass.next { s with offset := s.offset + 1, cells := s.cells.set s.index.toNat c }
          rest out := by
  obtain ⟨idx, off, cs, bs, sn, pr, sk⟩ := s
  simp only at hop hskip hpend hprint hcell
  subst hskip hpend hprint
  have hst := interpret_store (s := Interpreter.mk idx (off + 1) cs bs true false (-1)) c rfl hcell
  simp only [readBody, hop, interpret_comma (s := Interpreter.mk idx off cs bs false false (-1))
    rfl rfl, Bool.false_eq_true, if_false, if_true, hst]

theorem readBody_dot {inp : List Nat} {s : Interpreter} {v : Nat}
    (stdin out : List Nat) (hop : readCell inp s.offset = some 46) (hskip : s.skipBlock = -1)
    (hpend : s.storeNext = false) (hprint : s.print = false)
    (hcell : readCell s.cells s.index = some v) :
    readBody inp s stdin out = Pass.next { s with offset := s.offset + 1 } stdin (out ++ fmtC v) := by
  obtain ⟨idx, off, cs, bs, sn, pr, sk⟩ := s
  simp only at hop hskip hpend hprint hcell
  subst hskip hpend hprint
  simp only [readBody, hop, interpret_dot (s := Interpreter.mk idx off cs bs false false (-1))
    rfl rfl hcell, if_true, Bool.false_eq_true, if_false]

/-- The echo program `,.`: from a state with skip inactive, no flag set and the
pointer inside the tape, `Read` stores the first data byte `b` in the current
cell and writes what `%c` makes of it. -/
theorem read_echo (s : Interpreter) (b : Nat) (rest : List Nat) (k : Nat)
    (hskip : s.skipBlock = -1) (hpend : s.storeNext = false) (hprint : s.print = false)
    (h0 : 0 ≤ s.index) (h1 : s.index < s.cells.length) :
    Read s [44, 46] (b :: rest) (3 + k) =
      Run.returned ⟨2, false, { s with offset := 2, cells := s.cells.set s.index.toNat b },
        fmtC b, rest⟩ := by
  obtain ⟨v, hv⟩ := readCell_inside h0 h1
  have hb := readCell_set_self b hv
  have hop1 : readCell [44, 46] ({ s with offset := 0 } : Interpreter).offset = some 44 := rfl
  have hop2 : readCell [44, 46]
      ({ s with offset := 0 + 1, cells := s.cells.set s.index.toNat b } : Interpreter).offset
        = some 46 := rfl
  unfold Read
  rw [show 3 + k = (k + 1 + 1) + 1 by omega,
    readLoop_next _ _ hop1 (readBody_comma b rest [] hop1 hskip hpend hprint hv),
    readLoop_next _ _ hop2 (readBody_dot rest [] hop2 hskip hpend hprint hb),
    readLoop_done _ _ _ _ rfl]
  rfl

/-- C6 at the failing input: on the program `,.` with the data byte 200, `Read`
returns without error after two passes, having written the two bytes 195 and
136 (the UTF-8 form of the code point 200), and not the one byte 200. -/
theorem read_echo_200 (k : Nat) :
    ∃ r, Read NewInterpreter [44, 46] [200] (3 + k) = Run.returned r ∧
      r.n = 2 ∧ r.err = false ∧ r.stdin = [] ∧ r.out = [195, 136] ∧ r.out ≠ [200] := by
  rw [read_echo NewInterpreter 200 [] k rfl rfl rfl (by decide)
    (by simp only [NewInterpreter, List.length_replicate]; decide)]
  exact ⟨_, rfl, rfl, rfl, rfl, by decide, by decide⟩

theorem interpret_right {s : Interpreter} (hskip : s.skipBlock = -1)
    (hpend : s.storeNext = false) (h0 : 0 ≤ s.index) (hmax : s.index < 9223372036854775807) :
    interpret s 62 = some (0, { s with offset := s.offset + 1, index := s.index + 1 }) := by
  rw [interpret_right_wraps hskip hpend, wrapInt_of_range (by omega) (by omega)]

theorem interpret_left_pos {s : Interpreter} (hskip : s.skipBlock = -1)
    (hpend : s.storeNext = false) (hpos : 0 < s.index) :
    interpret s 60 = some (0, { s with offset := s.offset + 1, index := s.index - 1 }) := by
  simp [interpret, interpretOperator, hskip, hpend, hpos]

theorem interpretOperator_other {s : Interpreter} {b : Nat} (h62 : b ≠ 62) (h60 : b ≠ 60)
    (h43 : b ≠ 43) (h45 : b ≠ 45) (h46 : b ≠ 46) (h44 : b ≠ 44) :
    interpretOperator s b = some (0, s) := by
  simp [interpretOperator, h62, h60, h43, h45, h46, h44]

/-- C11: with skip inactive, no pending input and the pointer `p` such that
`0 ≤ p < 30000 - 1`, the step `>` moves the pointer to `p + 1` and the step `<`
that follows moves it back to `p`; both steps return 0 and leave the cells as
they were. -/
theorem interpret_right_left (s : Interpreter) (hskip : s.skipBlock = -1)
    (hpend : s.storeNext = false) (h0 : 0 ≤ s.index) (h1 : s.index < 30000 - 1) :
    ∃ s1 s2, interpret s 62 = some (0, s1) ∧ s1.index = s.index + 1 ∧
      interpret s1 60 = some (0, s2) ∧ s2.index = s.index ∧
      s1.cells = s.cells ∧ s2.cells = s.cells := by
  refine ⟨{ s with offset := s.offset + 1, index := s.index + 1 },
    { s with offset := s.offset + 1 + 1, index := s.index },
    interpret_right hskip hpend h0 (by omega), rfl,
    ?_, rfl, rfl, rfl⟩
  have hpos : 0 < s.index + 1 := by omega
  rw [@interpret_left_pos { s with offset := s.offset + 1, index := s.index + 1 } hskip hpend
    hpos]
  simp

theorem interpret_right_left_witness :
    ∃ s1 s2, interpret NewInterpreter 62 = some (0, s1) ∧ s1.index = NewInterpreter.index + 1 ∧
      interpret s1 60 = some (0, s2) ∧ s2.index = NewInterpreter.index ∧
      s1.cells = NewInterpreter.cells ∧ s2.cells = NewInterpreter.cells :=
  interpret_right_left NewInterpreter rfl rfl (by decide) (by decide)

/-- C12: with no pending input, a step on a byte `b` that is none of
`>` `<` `+` `-` `.` `,` `[` `]` returns 0 and adds one to the offset; the
pointer, the cells, the block stack, the skip state and both flags stay as they
were. -/
theorem interpret_unknown (s : Interpreter) (b : Nat) (hpend : s.storeNext = false)
    (h62 : b ≠ 62) (h60 : b ≠ 60) (h43 : b ≠ 43) (h45 : b ≠ 45) (h46 : b ≠ 46)
    (h44 : b ≠ 44) (h91 : b ≠ 91) (h93 : b ≠ 93) :
    interpret s b = some (0, { s with offset := s.offset + 1 }) := by
  unfold interpret
  simp only [hpend, Bool.false_eq_true, if_false, h91, h93]
  split_ifs
  · rfl
  · exact interpretOperator_other h62 h60 h43 h45 h46 h44

theorem interpret_unknown_witness :
    interpret NewInterpreter 32 = some (0, { NewInterpreter with offset := 0 + 1 }) :=
  interpret_unknown NewInterpreter 32 rfl (by decide) (by decide) (by decide) (by decide)
    (by decide) (by decide) (by decide) (by decide)

/-! ## What the brackets record -/

theorem interpret_open_stack {s s' : Interpreter} {r : Nat} (hpend : s.storeNext = false)
    (h : interpret s 91 = some (r, s')) :
    r = 0 ∧ s'.blockStack = s.blockStack ++ [s.offset] ∧ s'.offset = s.offset + 1 := by
  unfold interpret at h
  simp only [hpend, Bool.false_eq_true, if_false, if_true, interpretOperator_open,
    show ¬ (91 : Nat) = 93 by decide, add_sub_cancel_right] at h
  by_cases hk : s.skipBlock = -1
  · rw [if_pos hk] at h
    cases hr : readCell s.cells s.index with
    | none => simp [hr] at h
    | some c =>
      simp only [hr, Option.some.injEq, Prod.mk.injEq] at h
      obtain ⟨rfl, rfl⟩ := h
      split_ifs <;> exact ⟨rfl, rfl, rfl⟩
  · rw [if_neg hk] at h
    simp only [Option.some.injEq, Prod.mk.injEq] at h
    obtain ⟨rfl, rfl⟩ := h
    exact ⟨rfl, rfl, rfl⟩

theorem interpret_open_succeeds {s : Interpreter} (hpend : s.storeNext = false)
    (hin : s.skipBlock = -1 → 0 ≤ s.index ∧ s.index < s.cells.length) :
    ∃ s', interpret s 91 = some (0, s') := by
  unfold interpret
  simp only [hpend, Bool.false_eq_true, if_false, if_true, interpretOperator_open,
    show ¬ (91 : Nat) = 93 by decide]
  by_cases hk : s.skipBlock = -1
  · obtain ⟨h0, h1⟩ := hin hk
    obtain ⟨v, hv⟩ := readCell_inside h0 h1
    rw [if_pos hk]
    simp only [hv]
    exact ⟨_, rfl⟩
  · rw [if_neg hk]
    exact ⟨_, rfl⟩

/-- C14, as stated, fails: the `[` at position 8 of the Hello World program
leaves the offset at 9 and pushes 8, the position of the `[` itself, and not the
post-advance offset 9. -/
theorem open_pushes_not_post_advance :
    beforeFirstLoop.storeNext = false ∧
      ∃ s', interpret beforeFirstLoop 91 = some (0, s') ∧ s'.offset = 9 ∧
        s'.blockStack = [8] ∧ s'.blockStack ≠ beforeFirstLoop.blockStack ++ [s'.offset] := by
  have hin : beforeFirstLoop.skipBlock = -1 →
      0 ≤ beforeFirstLoop.index ∧ beforeFirstLoop.index < beforeFirstLoop.cells.length := by
    intro _
    refine ⟨by decide, ?_⟩
    simp only [beforeFirstLoop, List.length_set, List.length_replicate]
    decide
  obtain ⟨s', hs'⟩ := interpret_open_succeeds (s := beforeFirstLoop) rfl hin
  obtain ⟨_, hst, hoff⟩ := interpret_open_stack rfl hs'
  refine ⟨rfl, s', hs', hoff, hst, ?_⟩
  rw [hst, hoff]
  decide

/-- C14, amended: with no pending input, a successful step on `[` returns 0,
adds one to the offset and pushes onto the block stack the offset before the
advance, that is the position of the `[` itself (the offset after the step,
minus one); the step succeeds whenever skip is not inactive or the pointer is
inside the tape. -/
theorem open_pushes_own_position (s : Interpreter) (hpend : s.storeNext = false) :
    (∀ r s', interpret s 91 = some (r, s') →
      r = 0 ∧ s'.offset = s.offset + 1 ∧ s'.blockStack = s.blockStack ++ [s'.offset - 1]) ∧
    ((s.skipBlock = -1 → 0 ≤ s.index ∧ s.index < s.cells.length) →
      ∃ s', interpret s 91 = some (0, s')) := by
  refine ⟨?_, interpret_open_succeeds hpend⟩
  intro r s' h
  obtain ⟨hr, hst, hoff⟩ := interpret_open_stack hpend h
  refine ⟨hr, hoff, ?_⟩
  rw [hst, hoff]
  simp

theorem open_pushes_own_position_witness :
    (∀ r s', interpret beforeFirstLoop 91 = some (r, s') →
      r = 0 ∧ s'.offset = beforeFirstLoop.offset + 1 ∧
        s'.blockStack = beforeFirstLoop.blockStack ++ [s'.offset - 1]) ∧
    ((beforeFirstLoop.skipBlock = -1 →
        0 ≤ beforeFirstLoop.index ∧ beforeFirstLoop.index < beforeFirstLoop.cells.length) →
      ∃ s', interpret beforeFirstLoop 91 = some (0, s')) :=
  open_pushes_own_position beforeFirstLoop rfl

/-- C15, as stated, fails in both directions: with recorded depth 1 and the
block stack `[0]`, `]` ends the skip although the length after the pop is 0; with
recorded depth 1 and the block stack `[0, 1]`, `]` does not end the skip although
the length after the pop is 1. -/
theorem close_compares_not_after_pop :
    (∃ s', interpret skipJustBegun 93 = some (0, s') ∧ s'.skipBlock = -1 ∧
        (s'.blockStack.length : Int) ≠ skipJustBegun.skipBlock) ∧
    (∃ s', interpret skipNested 93 = some (0, s') ∧ s'.skipBlock ≠ -1 ∧
        (s'.blockStack.length : Int) = skipNested.skipBlock) := by
  refine ⟨⟨_, rfl, rfl, ?_⟩, ⟨_, rfl, ?_, rfl⟩⟩ <;> decide

/-- C15, amended: with skip active at the recorded depth `N` (`skipBlock = N`,
`N ≥ 1`), no pending input and a non-empty block stack, `]` succeeds and makes
skip inactive if and only if the length of the block stack before the pop
equals `N`; otherwise the recorded depth stays `N`. -/
theorem close_ends_skip_iff (s : Interpreter) (hskip : 1 ≤ s.skipBlock)
    (hpend : s.storeNext = false) (hstack : s.blockStack ≠ []) :
    ∃ s', interpret s 93 = some (0, s') ∧
      (s'.skipBlock = -1 ↔ (s.blockStack.length : Int) = s.skipBlock) ∧
      (s'.skipBlock ≠ -1 → s'.skipBlock = s.skipBlock) := by
  obtain ⟨st, x, hst⟩ : ∃ st x, s.blockStack = st ++ [x] :=
    ⟨s.blockStack.dropLast, s.blockStack.getLast hstack,
      (List.dropLast_append_getLast hstack).symm⟩
  have hlen : (s.blockStack.length : Int) = st.length + 1 := by simp [hst]
  by_cases heq : s.skipBlock = st.length + 1
  · refine ⟨_, interpret_skip_close_last hpend hst heq, ?_, ?_⟩
    · simp [hlen, heq]
    · intro h
      exact absurd rfl h
  · refine ⟨_, interpret_skip_close hpend hskip hst heq, ?_, ?_⟩
    · constructor
      · intro h
        have : s.skipBlock = -1 := h
        omega
      · intro h
        exact absurd (by omega) heq
    · intro _
      rfl

theorem close_ends_skip_iff_witness :
    ∃ s', interpret skipNested 93 = some (0, s') ∧
      (s'.skipBlock = -1 ↔ (skipNested.blockStack.length : Int) = skipNested.skipBlock) ∧
      (s'.skipBlock ≠ -1 → s'.skipBlock = skipNested.skipBlock) :=
  close_ends_skip_iff skipNested (by decide) rfl (by decide)

/-! ## What one step does to the control state -/

theorem interpretOperator_control {s s' : Interpreter} {b r : Nat}
    (h : interpretOperator s b = some (r, s')) :
    s'.blockStack = s.blockStack ∧ s'.skipBlock = s.skipBlock ∧ s'.offset = s.offset ∧
      (s'.storeNext = s.storeNext ∨ s'.storeNext = true) := by
  unfold interpretOperator at h
  split_ifs at h with h62 h60 hpos h43 h45 h46 h44
  all_goals first
    | (simp only [Option.some.injEq, Prod.mk.injEq] at h
       obtain ⟨_, rfl⟩ := h
       first
         | exact ⟨rfl, rfl, rfl, Or.inl rfl⟩
         | exact ⟨rfl, rfl, rfl, Or.inr rfl⟩)
    | (cases hr : readCell s.cells s.index with
       | none => simp [hr] at h
       | some c =>
         simp only [hr] at h
         first
           | (simp only [Option.some.injEq, Prod.mk.injEq] at h
              obtain ⟨_, rfl⟩ := h
              exact ⟨rfl, rfl, rfl, Or.inl rfl⟩)
           | (simp only [storeCell_of_readCell _ hr, Option.some.injEq, Prod.mk.injEq] at h
              obtain ⟨_, rfl⟩ := h
              exact ⟨rfl, rfl, rfl, Or.inl rfl⟩))

/-- What a successful step does to the block stack, the skip state, the offset
and the pending-input flag, by the kind of step. -/
theorem interpret_control {s s' : Interpreter} {b r : Nat}
    (h : interpret s b = some (r, s')) :
    (s.storeNext = true ∧ s'.storeNext = false ∧ s'.blockStack = s.blockStack ∧
        s'.skipBlock = s.skipBlock ∧ s'.offset = s.offset) ∨
    (s.storeNext = false ∧ b = 93 ∧ s'.storeNext = false ∧
        ∃ x, s.blockStack = s'.blockStack ++ [x] ∧
          ((s.skipBlock = -1 ∧ s'.skipBlock = -1 ∧
              (s'.offset = s.offset + 1 ∨ s'.offset = x)) ∨
            (s.skipBlock ≠ -1 ∧ s.skipBlock = s.blockStack.length ∧ s'.skipBlock = -1 ∧
              s'.offset = s.offset + 1) ∨
            (s.skipBlock ≠ -1 ∧ s.skipBlock ≠ s.blockStack.length ∧
              s'.skipBlock = s.skipBlock ∧ s'.offset = s.offset + 1))) ∨
    (s.storeNext = false ∧ b = 91 ∧ s'.storeNext = false ∧
        s'.blockStack = s.blockStack ++ [s.offset] ∧ s'.offset = s.offset + 1 ∧
        (s'.skipBlock = s.skipBlock ∨
          (s.skipBlock = -1 ∧ s'.skipBlock = s.blockStack.length + 1))) ∨
    (s.storeNext = false ∧ b ≠ 91 ∧ b ≠ 93 ∧ s'.blockStack = s.blockStack ∧
        s'.skipBlock = s.skipBlock ∧ s'.offset = s.offset + 1 ∧
        (s'.storeNext = true → ¬ 0 < s.skipBlock)) := by
  unfold interpret at h
  by_cases hst : s.storeNext = true
  · rw [if_pos hst] at h
    cases hs : storeCell s.cells s.index b with
    | none => simp [hs] at h
    | some cs =>
      simp only [hs, Option.some.injEq, Prod.mk.injEq] at h
      obtain ⟨_, rfl⟩ := h
      exact Or.inl ⟨hst, rfl, rfl, rfl, rfl⟩
  · have hsf : s.storeNext = false := by simpa using hst
    rw [if_neg hst] at h
    simp only at h
    by_cases h93 : b = 93
    · rw [if_pos h93] at h
      refine Or.inr (Or.inl ?_)
      cases hl : s.blockStack.getLast? with
      | none => simp [hl] at h
      | some popped =>
        have hsplit : s.blockStack = s.blockStack.dropLast ++ [popped] :=
          (List.dropLast_append_getLast? popped hl).symm
        simp only [hl] at h
        by_cases hk : s.skipBlock = -1
        · rw [if_pos hk] at h
          cases hr : readCell s.cells s.index with
          | none => simp [hr] at h
          | some c =>
            simp only [hr, Option.some.injEq, Prod.mk.injEq] at h
            obtain ⟨_, rfl⟩ := h
            by_cases hc : c = 0
            · rw [if_neg (not_not.mpr hc)]
              exact ⟨hsf, h93, hsf, popped, hsplit, Or.inl ⟨hk, hk, Or.inl rfl⟩⟩
            · rw [if_pos hc]
              exact ⟨hsf, h93, hsf, popped, hsplit, Or.inl ⟨hk, hk, Or.inr rfl⟩⟩
        · rw [if_neg hk] at h
          by_cases hn : s.skipBlock = s.blockStack.length
          · rw [if_pos hn] at h
            simp only [Option.some.injEq, Prod.mk.injEq] at h
            obtain ⟨_, rfl⟩ := h
            exact ⟨hsf, h93, hsf, popped, hsplit, Or.inr (Or.inl ⟨hk, hn, rfl, rfl⟩)⟩
          · rw [if_neg hn] at h
            simp only [Option.some.injEq, Prod.mk.injEq] at h
            obtain ⟨_, rfl⟩ := h
            exact ⟨hsf, h93, hsf, popped, hsplit, Or.inr (Or.inr ⟨hk, hn, rfl, rfl⟩)⟩
    · rw [if_neg h93] at h
      by_cases h91 : b = 91
      · subst h91
        refine Or.inr (Or.inr (Or.inl ?_))
        simp only [if_true, interpretOperator_open, add_sub_cancel_right] at h
        by_cases hk : s.skipBlock = -1
        · rw [if_pos hk] at h
          cases hr : readCell s.cells s.index with
          | none => simp [hr] at h
          | some c =>
            simp only [hr, Option.some.injEq, Prod.mk.injEq] at h
            obtain ⟨_, rfl⟩ := h
            by_cases hc : c = 0
            · rw [if_pos hc]
              exact ⟨hsf, rfl, hsf, rfl, rfl, Or.inr ⟨hk, by simp⟩⟩
            · rw [if_neg hc]
              exact ⟨hsf, rfl, hsf, rfl, rfl, Or.inl rfl⟩
        · rw [if_neg hk] at h
          simp only [Option.some.injEq, Prod.mk.injEq] at h
          obtain ⟨_, rfl⟩ := h
          exact ⟨hsf, rfl, hsf, rfl, rfl, Or.inl rfl⟩
      · rw [if_neg h91] at h
        refine Or.inr (Or.inr (Or.inr ?_))
        by_cases hk : s.skipBlock > 0
        · rw [if_pos hk] at h
          simp only [Option.some.injEq, Prod.mk.injEq] at h
          obtain ⟨_, rfl⟩ := h
          exact ⟨hsf, h91, h93, rfl, rfl, rfl, fun hx => by simp [hsf] at hx⟩
        · rw [if_neg hk] at h
          obtain ⟨hbs, hsk, hoff, _⟩ := interpretOperator_control h
          exact ⟨hsf, h91, h93, hbs, hsk, hoff, fun _ => hk⟩

/-! ## Invariants of the steps from a fresh interpreter -/

theorem feed_stack_length (w : List Nat) :
    ∀ (s s' : Interpreter) (rs : List Nat), feed s w = some (rs, s') →
      (s'.blockStack.length : Int)
        = s.blockStack.length + ((dispatched s w).count 91 : Int)
          - ((dispatched s w).count 93 : Int) := by
  induction w with
  | nil =>
    intro s s' rs h
    simp only [feed, Option.some.injEq, Prod.mk.injEq] at h
    obtain ⟨_, rfl⟩ := h
    simp [dispatched]
  | cons b w ih =>
    intro s s' rs h
    simp only [feed] at h
    cases hi : interpret s b with
    | none => simp [hi] at h
    | some p =>
      obtain ⟨r, s1⟩ := p
      simp only [hi] at h
      cases hf : feed s1 w with
      | none => simp [hf] at h
      | some q =>
        obtain ⟨rs1, s2⟩ := q
        simp only [hf, Option.some.injEq, Prod.mk.injEq] at h
        obtain ⟨_, rfl⟩ := h
        have hrec := ih s1 s2 rs1 hf
        simp only [dispatched, hi]
        rcases interpret_control hi with
          ⟨hst, _, hbs, _, _⟩ | ⟨hst, hb, _, x, hbs, _⟩ | ⟨hst, hb, _, hbs, _, _⟩ |
          ⟨hst, h91, h93, hbs, _, _, _⟩
        · simp only [hst, if_true]
          rw [hrec, hbs]
        · subst hb
          have hlen : (s.blockStack.length : Int) = s1.blockStack.length + 1 := by
            simp [hbs]
          simp only [hst, Bool.false_eq_true, if_false, List.count_cons_self,
            List.count_cons_of_ne (show (91 : Nat) ≠ 93 by decide)]
          rw [hrec, hlen]
          push_cast
          ring
        · subst hb
          have hlen : (s1.blockStack.length : Int) = s.blockStack.length + 1 := by
            simp [hbs]
          simp only [hst, Bool.false_eq_true, if_false, List.count_cons_self,
            List.count_cons_of_ne (show (93 : Nat) ≠ 91 by decide)]
          rw [hrec, hlen]
          push_cast
          ring
        · simp only [hst, Bool.false_eq_true, if_false, List.count_cons_of_ne (Ne.symm h91),
            List.count_cons_of_ne (Ne.symm h93)]
          rw [hrec, hbs]

/-- C13: after any sequence of successful steps from a fresh interpreter, the
length of the block stack is the number of `[` dispatched minus the number of
`]` dispatched in that sequence (a byte taken by the pending-input path is not
a dispatch), whether skip is active or not. -/
theorem stack_length_tracks_dispatches (w rs : List Nat) (s' : Interpreter)
    (h : feed NewInterpreter w = some (rs, s')) :
    (s'.blockStack.length : Int)
      = ((dispatched NewInterpreter w).count 91 : Int)
        - ((dispatched NewInterpreter w).count 93 : Int) := by
  have hlen := feed_stack_length w NewInterpreter s' rs h
  have h0 : (NewInterpreter.blockStack.length : Int) = 0 := rfl
  rw [hlen, h0]
  ring

theorem skipWellFormed_step {s s' : Interpreter} {b r : Nat} (hinv : skipWellFormed s)
    (h : interpret s b = some (r, s')) : skipWellFormed s' := by
  obtain ⟨hsk, hpend⟩ := hinv
  unfold skipWellFormed
  rcases interpret_control h with
    ⟨hst, hst', hbs, hskip, _⟩ | ⟨hst, hb, hst', x, hbs, hcases⟩ |
    ⟨hst, hb, hst', hbs, _, hcases⟩ | ⟨hst, h91, h93, hbs, hskip, _, hnew⟩
  · rw [hbs, hskip, hst']
    exact ⟨hsk, fun hx => by cases hx⟩
  · have hlen : (s.blockStack.length : Int) = s'.blockStack.length + 1 := by
      simp [hbs]
    rw [hst']
    refine ⟨?_, fun hx => by cases hx⟩
    rcases hcases with ⟨_, h1, _⟩ | ⟨_, _, h1, _⟩ | ⟨h1, h2, h3, _⟩
    · exact Or.inl h1
    · exact Or.inl h1
    · right
      rw [h3]
      omega
  · have hlen : (s'.blockStack.length : Int) = s.blockStack.length + 1 := by
      simp [hbs]
    rw [hst']
    refine ⟨?_, fun hx => by cases hx⟩
    rcases hcases with h1 | ⟨_, h1⟩
    · rw [h1]
      omega
    · right
      rw [h1]
      omega
  · rw [hbs, hskip]
    refine ⟨hsk, fun hx => ?_⟩
    have := hnew hx
    omega

theorem skipWellFormed_feed (w : List Nat) :
    ∀ (s s' : Interpreter) (rs : List Nat), skipWellFormed s → feed s w = some (rs, s') →
      skipWellFormed s' := by
  induction w with
  | nil =>
    intro s s' rs hinv h
    simp only [feed, Option.some.injEq, Prod.mk.injEq] at h
    obtain ⟨_, rfl⟩ := h
    exact hinv
  | cons b w ih =>
    intro s s' rs hinv h
    simp only [feed] at h
    cases hi : interpret s b with
    | none => simp [hi] at h
    | some p =>
      obtain ⟨r, s1⟩ := p
      simp only [hi] at h
      cases hf : feed s1 w with
      | none => simp [hf] at h
      | some q =>
        obtain ⟨rs1, s2⟩ := q
        simp only [hf, Option.some.injEq, Prod.mk.injEq] at h
        obtain ⟨_, rfl⟩ := h
        exact ih s1 s2 rs1 (skipWellFormed_step hinv hi) hf

/-- C20: in every state reached from a fresh interpreter by successful steps,
`skipBlock` is `-1` or lies between 1 and the length of the block stack; so it
is never 0, never more than that length, `skipBlock > 0` says the same as
`skipBlock ≠ -1`, and no input is pending while skip is active. -/
theorem skip_state_well_formed (w rs : List Nat) (s' : Interpreter)
    (h : feed NewInterpreter w = some (rs, s')) :
    (s'.skipBlock = -1 ∨ (1 ≤ s'.skipBlock ∧ s'.skipBlock ≤ s'.blockStack.length)) ∧
      s'.skipBlock ≠ 0 ∧ s'.skipBlock ≤ s'.blockStack.length ∧
      (0 < s'.skipBlock ↔ s'.skipBlock ≠ -1) ∧
      (0 < s'.skipBlock → s'.storeNext = false) := by
  have hfresh : skipWellFormed NewInterpreter := ⟨Or.inl rfl, fun _ => rfl⟩
  obtain ⟨hsk, hpend⟩ := skipWellFormed_feed w NewInterpreter s' rs hfresh h
  refine ⟨hsk, by omega, by omega, by omega, fun hpos => ?_⟩
  cases hx : s'.storeNext
  · rfl
  · have := hpend hx
    omega

theorem readCell_replicate {n : Nat} {i : Int} (a : Nat) (h0 : 0 ≤ i) (h1 : i < n) :
    readCell (List.replicate n a) i = some a := by
  have hlt : i.toNat < n := by omega
  simp only [readCell, if_pos h0, List.getElem?_replicate, if_pos hlt]

theorem readCell_fresh : readCell NewInterpreter.cells 0 = some 0 :=
  readCell_replicate 0 (by decide) (by decide)

theorem interpret_open_nonzero {s : Interpreter} {v : Nat} (hpend : s.storeNext = false)
    (hskip : s.skipBlock = -1) (hcell : readCell s.cells s.index = some v) (hv : v ≠ 0) :
    interpret s 91
      = some (0, { s with offset := s.offset + 1, blockStack := s.blockStack ++ [s.offset] }) := by
  simp [interpret, hpend, hskip, hcell, hv, interpretOperator_open]

theorem interpret_close_nonzero {s : Interpreter} {st : List Int} {x : Int} {v : Nat}
    (hpend : s.storeNext = false) (hskip : s.skipBlock = -1) (hst : s.blockStack = st ++ [x])
    (hcell : readCell s.cells s.index = some v) (hv : v ≠ 0) :
    interpret s 93 = some (0, { s with offset := x, blockStack := st }) := by
  simp [interpret, hpend, hskip, hst, hcell, hv]

theorem interpret_close_zero {s : Interpreter} {st : List Int} {x : Int}
    (hpend : s.storeNext = false) (hskip : s.skipBlock = -1) (hst : s.blockStack = st ++ [x])
    (hcell : readCell s.cells s.index = some 0) :
    interpret s 93 = some (0, { s with offset := s.offset + 1, blockStack := st }) := by
  simp [interpret, hpend, hskip, hst, hcell]

theorem feed_afterDataLoop :
    feed NewInterpreter [43, 91, 44, 93, 93] = some ([0, 0, 0, 0, 0], afterDataLoop) := by
  have hc1 := readCell_set_self (i := 0) 1 readCell_fresh
  have hc2 := readCell_set_self (i := 0) 93 hc1
  have h1 : interpret NewInterpreter 43
      = some (0, Interpreter.mk 0 1 ((List.replicate 30000 0).set 0 1) [] false false (-1)) :=
    interpret_plus rfl rfl readCell_fresh
  have h2 : interpret (Interpreter.mk 0 1 ((List.replicate 30000 0).set 0 1) [] false false (-1))
      91 = some (0, Interpreter.mk 0 2 ((List.replicate 30000 0).set 0 1) [1] false false (-1)) :=
    interpret_open_nonzero rfl rfl hc1 (by decide)
  have h3 : interpret (Interpreter.mk 0 2 ((List.replicate 30000 0).set 0 1) [1] false false (-1))
      44 = some (0, Interpreter.mk 0 3 ((List.replicate 30000 0).set 0 1) [1] true false (-1)) :=
    interpret_comma rfl rfl
  have h4 : interpret (Interpreter.mk 0 3 ((List.replicate 30000 0).set 0 1) [1] true false (-1))
      93 = some (0, Interpreter.mk 0 3 (((List.replicate 30000 0).set 0 1).set 0 93) [1] false
        false (-1)) :=
    interpret_store 93 rfl hc1
  have h5 : interpret (Interpreter.mk 0 3 (((List.replicate 30000 0).set 0 1).set 0 93) [1] false
      false (-1)) 93 = some (0, afterDataLoop) :=
    @interpret_close_nonzero _ [] 1 93 rfl rfl rfl hc2 (by decide)
  exact feed_cons_some h1 (feed_cons_some h2 (feed_cons_some h3 (feed_cons_some h4
    (feed_cons_some h5 rfl))))

theorem stack_length_tracks_dispatches_witness :
    (afterDataLoop.blockStack.length : Int)
      = ((dispatched NewInterpreter [43, 91, 44, 93, 93]).count 91 : Int)
        - ((dispatched NewInterpreter [43, 91, 44, 93, 93]).count 93 : Int) :=
  stack_length_tracks_dispatches [43, 91, 44, 93, 93] [0, 0, 0, 0, 0] afterDataLoop
    feed_afterDataLoop

theorem feed_skipNested : feed NewInterpreter [91, 91] = some ([0, 0], skipNested) := by
  have h1 : interpret NewInterpreter 91
      = some (0, Interpreter.mk 0 1 (List.replicate 30000 0) [0] false false 1) :=
    interpret_open_zero rfl rfl readCell_fresh
  have h2 : interpret (Interpreter.mk 0 1 (List.replicate 30000 0) [0] false false 1) 91
      = some (0, skipNested) :=
    interpret_skip_open rfl (by decide)
  exact feed_cons_some h1 (feed_cons_some h2 rfl)

theorem skip_state_well_formed_witness :
    (skipNested.skipBlock = -1 ∨
        (1 ≤ skipNested.skipBlock ∧ skipNested.skipBlock ≤ skipNested.blockStack.length)) ∧
      skipNested.skipBlock ≠ 0 ∧ skipNested.skipBlock ≤ skipNested.blockStack.length ∧
      (0 < skipNested.skipBlock ↔ skipNested.skipBlock ≠ -1) ∧
      (0 < skipNested.skipBlock → skipNested.storeNext = false) :=
  skip_state_well_formed [91, 91] [0, 0] skipNested feed_skipNested

/-! ## Passes of the driver loop -/

theorem readBody_plain {inp : List Nat} {s s' : Interpreter} {op r : Nat}
    (stdin out : List Nat) (hop : readCell inp s.offset = some op)
    (hi : interpret s op = some (r, s')) (hprint : s'.print = false)
    (hpend : s'.storeNext = false) :
    readBody inp s stdin out = Pass.next s' stdin out := by
  obtain ⟨idx, off, cs, bs, sn, pr, sk⟩ := s'
  simp only at hprint hpend
  subst hprint hpend
  simp only [readBody, hop, hi, Bool.false_eq_true, if_false]

theorem readBody_print {inp : List Nat} {s s' : Interpreter} {op r : Nat}
    (stdin out : List Nat) (hop : readCell inp s.offset = some op)
    (hi : interpret s op = some (r, s')) (hprint : s'.print = true)
    (hpend : s'.storeNext = false) :
    readBody inp s stdin out = Pass.next { s' with print := false } stdin (out ++ fmtC r) := by
  obtain ⟨idx, off, cs, bs, sn, pr, sk⟩ := s'
  simp only at hprint hpend
  subst hprint hpend
  simp only [readBody, hop, hi, Bool.false_eq_true, if_false, if_true]

theorem readBody_input {inp : List Nat} {s s' s'' : Interpreter} {op r c r' : Nat}
    (rest out : List Nat) (hop : readCell inp s.offset = some op)
    (hi : interpret s op = some (r, s')) (hprint : s'.print = false)
    (hpend : s'.storeNext = true) (hi' : interpret s' c = some (r', s'')) :
    readBody inp s (c :: rest) out = Pass.next s'' rest out := by
  obtain ⟨idx, off, cs, bs, sn, pr, sk⟩ := s'
  simp only at hprint hpend
  subst hprint hpend
  simp only [readBody, hop, hi, Bool.false_eq_true, if_false, if_true, hi']

theorem passes_step {inp : List Nat} {s j : Interpreter} {stdin out sin o : List Nat}
    (k : Nat) (hoff : s.offset ≠ inp.length)
    (hb : readBody inp s stdin out = Pass.next j sin o) :
    passes inp (k + 1) s stdin out = passes inp k j sin o := by
  simp only [passes, if_neg hoff, hb]

theorem passes_add (inp : List Nat) (b : Nat) :
    ∀ (a : Nat) (s s1 : Interpreter) (stdin out sin1 o1 : List Nat),
      passes inp a s stdin out = some (s1, sin1, o1) →
      passes inp (a + b) s stdin out = passes inp b s1 sin1 o1 := by
  intro a
  induction a with
  | zero =>
    intro s s1 stdin out sin1 o1 h
    simp only [passes, Option.some.injEq, Prod.mk.injEq] at h
    obtain ⟨rfl, rfl, rfl⟩ := h
    rw [Nat.zero_add]
  | succ a ih =>
    intro s s1 stdin out sin1 o1 h
    rw [Nat.succ_add]
    simp only [passes] at h ⊢
    by_cases hoff : s.offset = inp.length
    · simp [hoff] at h
    · rw [if_neg hoff] at h ⊢
      cases hb : readBody inp s stdin out with
      | crash => simp [hb] at h
      | inputError i o => simp [hb] at h
      | next j sin o =>
        simp only [hb] at h ⊢
        exact ih _ _ _ _ _ _ h

theorem readLoop_passes (inp : List Nat) (fuel : Nat) :
    ∀ (k : Nat) (s s' : Interpreter) (stdin out sin o : List Nat) (n : Nat),
      passes inp k s stdin out = some (s', sin, o) →
      readLoop inp (fuel + k) s stdin out n = readLoop inp fuel s' sin o (n + k) := by
  intro k
  induction k with
  | zero =>
    intro s s' stdin out sin o n h
    simp only [passes, Option.some.injEq, Prod.mk.injEq] at h
    obtain ⟨rfl, rfl, rfl⟩ := h
    rfl
  | succ k ih =>
    intro s s' stdin out sin o n h
    simp only [passes] at h
    by_cases hoff : s.offset = inp.length
    · simp [hoff] at h
    · rw [if_neg hoff] at h
      cases hb : readBody inp s stdin out with
      | crash => simp [hb] at h
      | inputError i o => simp [hb] at h
      | next j sin1 o1 =>
        simp only [hb] at h
        rw [← Nat.add_assoc, readLoop_succ, if_neg hoff, hb]
        simp only
        rw [ih _ _ _ _ _ _ _ h]
        congr 1
        omega

/-! ## The unterminated loop `+[` -/

theorem passes_plusOpen (stdin : List Nat) :
    passes [43, 91] 2 { NewInterpreter with offset := 0 } stdin []
      = some (Interpreter.mk 0 2 ((List.replicate 30000 0).set 0 1) [1] false false (-1),
          stdin, []) := by
  have hc1 := readCell_set_self (i := 0) 1 readCell_fresh
  have h1 : interpret { NewInterpreter with offset := 0 } 43
      = some (0, Interpreter.mk 0 1 ((List.replicate 30000 0).set 0 1) [] false false (-1)) :=
    interpret_plus rfl rfl readCell_fresh
  have h2 : interpret (Interpreter.mk 0 1 ((List.replicate 30000 0).set 0 1) [] false false (-1))
      91 = some (0, Interpreter.mk 0 2 ((List.replicate 30000 0).set 0 1) [1] false false (-1)) :=
    interpret_open_nonzero rfl rfl hc1 (by decide)
  have hb1 : readBody [43, 91] { NewInterpreter with offset := 0 } stdin []
      = Pass.next (Interpreter.mk 0 1 ((List.replicate 30000 0).set 0 1) [] false false (-1))
          stdin [] :=
    readBody_plain stdin [] rfl h1 rfl rfl
  have hb2 : readBody [43, 91]
      (Interpreter.mk 0 1 ((List.replicate 30000 0).set 0 1) [] false false (-1)) stdin []
      = Pass.next (Interpreter.mk 0 2 ((List.replicate 30000 0).set 0 1) [1] false false (-1))
          stdin [] :=
    readBody_plain stdin [] rfl h2 rfl rfl
  rw [passes_step 1 (by decide) hb1, passes_step 0 (by decide) hb2]
  rfl

/-- C16: from a fresh interpreter, `Read` on the program `+[`, whatever the data
input, returns the count 2 and a nil error; cell 0 holds 1, the pointer is 0,
skip is inactive, the offset is 2 and the block stack has exactly one entry.
Nothing is written and no data is read: the open `[` is not reported. -/
theorem read_unterminated_loop (stdin : List Nat) (k : Nat) :
    ∃ r, Read NewInterpreter [43, 91] stdin (3 + k) = Run.returned r ∧
      r.n = 2 ∧ r.err = false ∧ readCell r.state.cells 0 = some 1 ∧ r.state.index = 0 ∧
      r.state.skipBlock = -1 ∧ r.state.offset = 2 ∧ r.state.blockStack.length = 1 ∧
      r.out = [] ∧ r.stdin = stdin := by
  unfold Read
  rw [show 3 + k = (k + 1) + 2 by omega, readLoop_passes _ _ _ _ _ _ _ _ _ _ (passes_plusOpen stdin),
    readLoop_done _ _ _ _ rfl]
  exact ⟨_, rfl, rfl, rfl, readCell_set_self (i := 0) 1 readCell_fresh, rfl, rfl, rfl, rfl, rfl,
    rfl⟩

/-! ## The clear loop `[-]` -/

theorem clearLoop_iteration {t : Interpreter} {w : Nat} (stdin out : List Nat)
    (hhead : atLoopHead t) (hcell : readCell t.cells t.index = some (w + 1))
    (hw : w + 1 < 256) :
    passes clearLoop 3 t stdin out
      = some ({ t with offset := if w = 0 then 3 else 0, cells := t.cells.set t.index.toNat w },
          stdin, out) := by
  obtain ⟨idx, off, cs, bs, sn, pr, sk⟩ := t
  obtain ⟨h1, h2, h3, h4, h5⟩ := hhead
  simp only at h1 h2 h3 h4 h5 hcell
  subst h1 h2 h3 h4 h5
  have h03 : (0 : Int) ≠ (clearLoop.length : Int) := by decide
  have h13 : (1 : Int) ≠ (clearLoop.length : Int) := by decide
  have h23 : (2 : Int) ≠ (clearLoop.length : Int) := by decide
  have hmod : (w + 1 + 255) % 256 = w := by omega
  have hcell' : readCell (cs.set idx.toNat w) idx = some w := readCell_set_self w hcell
  have hi1 : interpret (Interpreter.mk idx 0 cs [] false false (-1)) 91
      = some (0, Interpreter.mk idx 1 cs [0] false false (-1)) :=
    @interpret_open_nonzero (Interpreter.mk idx 0 cs [] false false (-1)) (w + 1) rfl rfl hcell
      (by omega)
  have hi2 : interpret (Interpreter.mk idx 1 cs [0] false false (-1)) 45
      = some (0, Interpreter.mk idx 2 (cs.set idx.toNat w) [0] false false (-1)) := by
    have := @interpret_minus (Interpreter.mk idx 1 cs [0] false false (-1)) (w + 1) rfl rfl hcell
    rw [hmod] at this
    exact this
  have hb1 : readBody clearLoop (Interpreter.mk idx 0 cs [] false false (-1)) stdin out
      = Pass.next (Interpreter.mk idx 1 cs [0] false false (-1)) stdin out :=
    readBody_plain stdin out rfl hi1 rfl rfl
  have hb2 : readBody clearLoop (Interpreter.mk idx 1 cs [0] false false (-1)) stdin out
      = Pass.next (Interpreter.mk idx 2 (cs.set idx.toNat w) [0] false false (-1)) stdin out :=
    readBody_plain stdin out rfl hi2 rfl rfl
  rw [passes_step 2 h03 hb1, passes_step 1 h13 hb2]
  by_cases hw0 : w = 0
  · subst hw0
    have hi3 : interpret (Interpreter.mk idx 2 (cs.set idx.toNat 0) [0] false false (-1)) 93
        = some (0, Interpreter.mk idx 3 (cs.set idx.toNat 0) [] false false (-1)) :=
      @interpret_close_zero (Interpreter.mk idx 2 (cs.set idx.toNat 0) [0] false false (-1))
        [] 0 rfl rfl rfl hcell'
    have hb3 : readBody clearLoop (Interpreter.mk idx 2 (cs.set idx.toNat 0) [0] false false (-1))
        stdin out
        = Pass.next (Interpreter.mk idx 3 (cs.set idx.toNat 0) [] false false (-1)) stdin out :=
      readBody_plain stdin out rfl hi3 rfl rfl
    rw [passes_step 0 h23 hb3]
    rfl
  · have hi3 : interpret (Interpreter.mk idx 2 (cs.set idx.toNat w) [0] false false (-1)) 93
        = some (0, Interpreter.mk idx 0 (cs.set idx.toNat w) [] false false (-1)) :=
      @interpret_close_nonzero (Interpreter.mk idx 2 (cs.set idx.toNat w) [0] false false (-1))
        [] 0 w rfl rfl rfl hcell' hw0
    have hb3 : readBody clearLoop (Interpreter.mk idx 2 (cs.set idx.toNat w) [0] false false (-1))
        stdin out
        = Pass.next (Interpreter.mk idx 0 (cs.set idx.toNat w) [] false false (-1)) stdin out :=
      readBody_plain stdin out rfl hi3 rfl rfl
    rw [passes_step 0 h23 hb3, if_neg hw0]
    rfl

theorem clearLoop_skipped {t : Interpreter} (stdin out : List Nat)
    (hhead : atLoopHead t) (hcell : readCell t.cells t.index = some 0) :
    passes clearLoop 3 t stdin out = some ({ t with offset := 3 }, stdin, out) := by
  obtain ⟨idx, off, cs, bs, sn, pr, sk⟩ := t
  obtain ⟨h1, h2, h3, h4, h5⟩ := hhead
  simp only at h1 h2 h3 h4 h5 hcell
  subst h1 h2 h3 h4 h5
  have h03 : (0 : Int) ≠ (clearLoop.length : Int) := by decide
  have h13 : (1 : Int) ≠ (clearLoop.length : Int) := by decide
  have h23 : (2 : Int) ≠ (clearLoop.length : Int) := by decide
  have hi1 : interpret (Interpreter.mk idx 0 cs [] false false (-1)) 91
      = some (0, Interpreter.mk idx 1 cs [0] false false 1) :=
    @interpret_open_zero (Interpreter.mk idx 0 cs [] false false (-1)) rfl rfl hcell
  have hi2 : interpret (Interpreter.mk idx 1 cs [0] false false 1) 45
      = some (0, Interpreter.mk idx 2 cs [0] false false 1) :=
    @interpret_skip_other (Interpreter.mk idx 1 cs [0] false false 1) 45 rfl
      (show (1 : Int) ≤ 1 by decide) (by decide) (by decide)
  have hi3 : interpret (Interpreter.mk idx 2 cs [0] false false 1) 93
      = some (0, Interpreter.mk idx 3 cs [] false false (-1)) :=
    @interpret_skip_close_last (Interpreter.mk idx 2 cs [0] false false 1) [] 0 rfl rfl rfl
  have hb1 : readBody clearLoop (Interpreter.mk idx 0 cs [] false false (-1)) stdin out
      = Pass.next (Interpreter.mk idx 1 cs [0] false false 1) stdin out :=
    readBody_plain stdin out rfl hi1 rfl rfl
  have hb2 : readBody clearLoop (Interpreter.mk idx 1 cs [0] false false 1) stdin out
      = Pass.next (Interpreter.mk idx 2 cs [0] false false 1) stdin out :=
    readBody_plain stdin out rfl hi2 rfl rfl
  have hb3 : readBody clearLoop (Interpreter.mk idx 2 cs [0] false false 1) stdin out
      = Pass.next (Interpreter.mk idx 3 cs [] false false (-1)) stdin out :=
    readBody_plain stdin out rfl hi3 rfl rfl
  rw [passes_step 2 h03 hb1, passes_step 1 h13 hb2,
    passes_step 0 h23 hb3]
  rfl

theorem clearLoop_runs (stdin out : List Nat) :
    ∀ (w : Nat) (t : Interpreter), atLoopHead t →
      readCell t.cells t.index = some (w + 1) → w + 1 < 256 →
      passes clearLoop (3 * (w + 1)) t stdin out
        = some ({ t with offset := 3, cells := t.cells.set t.index.toNat 0 }, stdin, out) := by
  intro w
  induction w with
  | zero =>
    intro t hhead hcell hw
    exact clearLoop_iteration stdin out hhead hcell hw
  | succ w ih =>
    intro t hhead hcell hw
    have hiter := clearLoop_iteration stdin out hhead hcell hw
    rw [if_neg (Nat.succ_ne_zero w)] at hiter
    rw [show 3 * (w + 1 + 1) = 3 + 3 * (w + 1) by ring, passes_add _ _ _ _ _ _ _ _ _ hiter]
    have hhead' : atLoopHead { t with offset := 0, cells := t.cells.set t.index.toNat (w + 1) } :=
      ⟨rfl, hhead.2.1, hhead.2.2.1, hhead.2.2.2.1, hhead.2.2.2.2⟩
    rw [ih _ hhead' (readCell_set_self (w + 1) hcell) (by omega)]
    simp only [List.set_set]

theorem clearLoop_head (stdin out : List Nat) :
    ∀ (j v : Nat) (t : Interpreter), atLoopHead t →
      readCell t.cells t.index = some v → v < 256 → j < v →
      ∃ c, passes clearLoop (3 * j) t stdin out = some (c, stdin, out) ∧ atLoopHead c ∧
        readCell c.cells c.index = some (v - j) := by
  intro j
  induction j with
  | zero =>
    intro v t hhead hcell _ _
    exact ⟨t, rfl, hhead, hcell⟩
  | succ j ih =>
    intro v t hhead hcell hv hj
    obtain ⟨w, rfl⟩ : ∃ w, v = w + 1 := ⟨v - 1, by omega⟩
    have hiter := clearLoop_iteration stdin out hhead hcell hv
    rw [if_neg (by omega)] at hiter
    have hhead' : atLoopHead { t with offset := 0, cells := t.cells.set t.index.toNat w } :=
      ⟨rfl, hhead.2.1, hhead.2.2.1, hhead.2.2.2.1, hhead.2.2.2.2⟩
    obtain ⟨c, hc, hch, hcc⟩ := ih w _ hhead' (readCell_set_self w hcell) (by omega) (by omega)
    refine ⟨c, ?_, hch, ?_⟩
    · rw [show 3 * (j + 1) = 3 + 3 * j by ring, passes_add _ _ _ _ _ _ _ _ _ hiter]
      exact hc
    · rw [hcc]
      congr 1
      omega

/-- C18: from a state with empty block stack, skip inactive, no flag set and the
pointer on a cell holding the byte `v`, `Read` on the program `[-]` returns with
a nil error; the current cell is 0, the other cells, the tape length and the
pointer are as before, nothing is written or read, the block stack is empty,
skip is inactive and the offset is 3; the count is 3 when `v = 0` and `3 * v`
otherwise.  Each turn of the loop is three passes and lowers the cell by one:
for `j < v`, after `3 * j` passes the run stands at offset 0 with `v - j` in the
cell, so that `-` takes effect `v` times. -/
theorem read_clearLoop (s : Interpreter) (v : Nat) (stdin : List Nat) (k : Nat)
    (hstack : s.blockStack = []) (hskip : s.skipBlock = -1) (hpend : s.storeNext = false)
    (hprint : s.print = false) (hcell : readCell s.cells s.index = some v) (hv : v < 256) :
    (∃ r, Read s clearLoop stdin (3 * v + 4 + k) = Run.returned r ∧
      r.err = false ∧ r.n = (if v = 0 then 3 else 3 * v) ∧
      readCell r.state.cells r.state.index = some 0 ∧
      (∀ j, j ≠ s.index → readCell r.state.cells j = readCell s.cells j) ∧
      r.state.cells.length = s.cells.length ∧ r.state.index = s.index ∧
      r.out = [] ∧ r.stdin = stdin ∧ r.state.blockStack = [] ∧
      r.state.skipBlock = -1 ∧ r.state.offset = 3) ∧
    (∀ j, j < v →
      ∃ c, passes clearLoop (3 * j) { s with offset := 0 } stdin [] = some (c, stdin, []) ∧
        c.offset = 0 ∧ readCell c.cells c.index = some (v - j)) := by
  have hhead : atLoopHead { s with offset := 0 } := ⟨rfl, hstack, hskip, hpend, hprint⟩
  obtain ⟨h0, _⟩ := readCell_some_inside hcell
  constructor
  · unfold Read
    by_cases hv0 : v = 0
    · subst hv0
      have hp := clearLoop_skipped stdin [] hhead hcell
      rw [show 3 * 0 + 4 + k = (k + 1) + 3 by omega,
        readLoop_passes _ _ _ _ _ _ _ _ _ _ hp, readLoop_done _ _ _ _ rfl]
      exact ⟨_, rfl, rfl, rfl, hcell, fun _ _ => rfl, rfl, rfl, rfl, rfl, hstack, hskip, rfl⟩
    · obtain ⟨w, rfl⟩ : ∃ w, v = w + 1 := ⟨v - 1, by omega⟩
      have hp := clearLoop_runs stdin [] w _ hhead hcell hv
      rw [show 3 * (w + 1) + 4 + k = (k + 4) + 3 * (w + 1) by omega,
        readLoop_passes _ _ _ _ _ _ _ _ _ _ hp, readLoop_done _ _ _ _ rfl]
      refine ⟨_, rfl, rfl, ?_, readCell_set_self 0 hcell, ?_, ?_, rfl, rfl, rfl, hstack, hskip,
        rfl⟩
      · simp
      · intro j hj
        exact readCell_set_other 0 h0 hj
      · simp
  · intro j hj
    obtain ⟨c, hc, hch, hcc⟩ := clearLoop_head stdin [] j v _ hhead hcell hv hj
    exact ⟨c, hc, hch.1, hcc⟩

theorem read_clearLoop_witness :
    (∃ r, Read cellTwo clearLoop [7] (3 * 2 + 4 + 0) = Run.returned r ∧
      r.err = false ∧ r.n = (if 2 = 0 then 3 else 3 * 2) ∧
      readCell r.state.cells r.state.index = some 0 ∧
      (∀ j, j ≠ cellTwo.index → readCell r.state.cells j = readCell cellTwo.cells j) ∧
      r.state.cells.length = cellTwo.cells.length ∧ r.state.index = cellTwo.index ∧
      r.out = [] ∧ r.stdin = [7] ∧ r.state.blockStack = [] ∧
      r.state.skipBlock = -1 ∧ r.state.offset = 3) ∧
    (∀ j, j < 2 →
      ∃ c, passes clearLoop (3 * j) { cellTwo with offset := 0 } [7] [] = some (c, [7], []) ∧
        c.offset = 0 ∧ readCell c.cells c.index = some (2 - j)) :=
  read_clearLoop cellTwo 2 [7] 0 rfl rfl rfl rfl rfl (by decide)

/-! ## Straight-line programs -/

theorem interpret_left_nonpos {s : Interpreter} (hskip : s.skipBlock = -1)
    (hpend : s.storeNext = false) (hpos : ¬ 0 < s.index) :
    interpret s 60 = some (0, { s with offset := s.offset + 1 }) := by
  simp [interpret, interpretOperator, hskip, hpend, hpos]

theorem interpret_noop {s : Interpreter} {b : Nat} (hpend : s.storeNext = false)
    (h62 : b ≠ 62) (h60 : b ≠ 60) (h43 : b ≠ 43) (h45 : b ≠ 45) (h46 : b ≠ 46)
    (h44 : b ≠ 44) (h91 : b ≠ 91) (h93 : b ≠ 93) :
    interpret s b = some (0, { s with offset := s.offset + 1 }) := by
  unfold interpret
  simp only [hpend, Bool.false_eq_true, if_false, h91, h93]
  split_ifs
  · rfl
  · exact interpretOperator_other h62 h60 h43 h45 h46 h44

theorem readBody_straight {inp : List Nat} {s : Interpreter} {op : Nat} (stdin out : List Nat)
    (hop : readCell inp s.offset = some op) (hinv : straightInv s) (h93 : op ≠ 93)
    (hright : op = 62 → s.index + 1 < s.cells.length)
    (hcap : (s.cells.length : Int) ≤ 9223372036854775807)
    (hdata : op = 44 → stdin ≠ []) :
    ∃ s' sin o, readBody inp s stdin out = Pass.next s' sin o ∧
      s'.offset = s.offset + 1 ∧ straightInv s' ∧
      s'.index ≤ s.index + (if op = 62 then 1 else 0) ∧
      s'.cells.length = s.cells.length ∧
      stdin.length ≤ sin.length + (if op = 44 then 1 else 0) := by
  obtain ⟨hpend, hprint, hsk, h0, h1⟩ := hinv
  obtain ⟨v, hv⟩ := readCell_inside h0 h1
  rcases hsk with hskip | hskip
  · -- skip is inactive: the operator takes effect
    by_cases h91 : op = 91
    · subst h91
      by_cases hv0 : v = 0
      · subst hv0
        refine ⟨_, stdin, out,
          readBody_plain stdin out hop (interpret_open_zero hpend hskip hv) hprint hpend,
          rfl, ⟨hpend, hprint, Or.inr ?_, h0, h1⟩, by simp, rfl, by simp⟩
        show (1 : Int) ≤ s.blockStack.length + 1
        omega
      · exact ⟨_, stdin, out,
          readBody_plain stdin out hop (interpret_open_nonzero hpend hskip hv hv0) hprint hpend,
          rfl, ⟨hpend, hprint, Or.inl hskip, h0, h1⟩, by simp, rfl, by simp⟩
    by_cases h62 : op = 62
    · subst h62
      have hr := hright rfl
      refine ⟨_, stdin, out,
        readBody_plain stdin out hop (interpret_right hskip hpend h0 (by omega)) hprint hpend,
        rfl, ⟨hpend, hprint, Or.inl hskip, ?_, hr⟩, by simp, rfl, by simp⟩
      show 0 ≤ s.index + 1
      omega
    by_cases h60 : op = 60
    · subst h60
      by_cases hpos : 0 < s.index
      · refine ⟨_, stdin, out,
          readBody_plain stdin out hop (interpret_left_pos hskip hpend hpos) hprint hpend,
          rfl, ⟨hpend, hprint, Or.inl hskip, ?_, ?_⟩, ?_, rfl, by simp⟩
        · show 0 ≤ s.index - 1
          omega
        · show s.index - 1 < s.cells.length
          omega
        · show s.index - 1 ≤ s.index + _
          simp
      · exact ⟨_, stdin, out,
          readBody_plain stdin out hop (interpret_left_nonpos hskip hpend hpos) hprint hpend,
          rfl, ⟨hpend, hprint, Or.inl hskip, h0, h1⟩, by simp, rfl, by simp⟩
    by_cases h43 : op = 43
    · subst h43
      refine ⟨_, stdin, out,
        readBody_plain stdin out hop (interpret_plus hskip hpend hv) hprint hpend,
        rfl, ⟨hpend, hprint, Or.inl hskip, h0, ?_⟩, by simp, by simp, by simp⟩
      simpa using h1
    by_cases h45 : op = 45
    · subst h45
      refine ⟨_, stdin, out,
        readBody_plain stdin out hop (interpret_minus hskip hpend hv) hprint hpend,
        rfl, ⟨hpend, hprint, Or.inl hskip, h0, ?_⟩, by simp, by simp, by simp⟩
      simpa using h1
    by_cases h46 : op = 46
    · subst h46
      exact ⟨_, stdin, _, readBody_dot stdin out hop hskip hpend hprint hv,
        rfl, ⟨hpend, hprint, Or.inl hskip, h0, h1⟩, by simp, rfl, by simp⟩
    by_cases h44 : op = 44
    · subst h44
      obtain ⟨c, rest, rfl⟩ : ∃ c rest, stdin = c :: rest := by
        cases stdin with
        | nil => exact absurd rfl (hdata rfl)
        | cons c rest => exact ⟨c, rest, rfl⟩
      refine ⟨_, rest, out, readBody_comma c rest out hop hskip hpend hprint hv,
        rfl, ⟨hpend, hprint, Or.inl hskip, h0, ?_⟩, by simp, by simp, by simp⟩
      simpa using h1
    · exact ⟨_, stdin, out,
        readBody_plain stdin out hop (interpret_noop hpend h62 h60 h43 h45 h46 h44 h91 h93)
          hprint hpend,
        rfl, ⟨hpend, hprint, Or.inl hskip, h0, h1⟩, by simp [h62], rfl, by simp⟩
  · -- skip is active: only `[` touches the state, and only the block stack
    by_cases h91 : op = 91
    · subst h91
      exact ⟨_, stdin, out,
        readBody_plain stdin out hop (interpret_skip_open hpend hskip) hprint hpend,
        rfl, ⟨hpend, hprint, Or.inr hskip, h0, h1⟩, by simp, rfl, by simp⟩
    · exact ⟨_, stdin, out,
        readBody_plain stdin out hop (interpret_skip_other hpend hskip h91 h93) hprint hpend,
        rfl, ⟨hpend, hprint, Or.inr hskip, h0, h1⟩, by split_ifs <;> simp, rfl, by simp⟩

theorem readCell_append_cons (pre rest : List Nat) (op : Nat) :
    readCell (pre ++ op :: rest) (pre.length : Int) = some op := by
  unfold readCell
  rw [if_pos (Int.natCast_nonneg _), Int.toNat_ofNat,
    List.getElem?_append_right (Nat.le_refl _), Nat.sub_self]
  simp

theorem passes_straight (inp : List Nat) :
    ∀ (rest pre : List Nat) (s : Interpreter) (stdin out : List Nat),
      inp = pre ++ rest → s.offset = pre.length → straightInv s → 93 ∉ rest →
      s.index + (rest.count 62 : Int) < s.cells.length →
      (s.cells.length : Int) ≤ 9223372036854775807 → rest.count 44 ≤ stdin.length →
      ∃ s' sin o, passes inp rest.length s stdin out = some (s', sin, o) ∧
        s'.offset = inp.length := by
  intro rest
  induction rest with
  | nil =>
    intro pre s stdin out hinp hoff _ _ _ _ _
    refine ⟨s, stdin, out, rfl, ?_⟩
    rw [hoff, hinp, List.append_nil]
  | cons op rest ih =>
    intro pre s stdin out hinp hoff hinv h93 hright hcap hdata
    have hop : readCell inp s.offset = some op := by
      rw [hinp, hoff]
      exact readCell_append_cons pre rest op
    have hne : op ≠ 93 := fun h => h93 (by rw [h]; exact List.mem_cons_self _ _)
    have h93' : 93 ∉ rest := fun h => h93 (List.mem_cons_of_mem _ h)
    have hoffne : s.offset ≠ inp.length := by
      rw [hoff, hinp]
      simp only [List.length_append, List.length_cons]
      push_cast
      omega
    have hr : op = 62 → s.index + 1 < s.cells.length := by
      intro h
      subst h
      rw [List.count_cons_self] at hright
      push_cast at hright
      omega
    have hd : op = 44 → stdin ≠ [] := by
      intro h hnil
      subst h
      rw [List.count_cons_self, hnil] at hdata
      simp at hdata
    obtain ⟨s1, sin1, o1, hb, hoff1, hinv1, hidx1, hlen1, hsin1⟩ :=
      readBody_straight stdin out hop hinv hne hr hcap hd
    have hinp' : inp = (pre ++ [op]) ++ rest := by
      rw [hinp, List.append_assoc]
      rfl
    have hoff' : s1.offset = ((pre ++ [op]).length : Int) := by
      rw [hoff1, hoff]
      simp
    have hright' : s1.index + (rest.count 62 : Int) < s1.cells.length := by
      rw [hlen1]
      by_cases h62 : op = 62
      · subst h62
        rw [List.count_cons_self] at hright
        rw [if_pos rfl] at hidx1
        push_cast at hright
        omega
      · rw [List.count_cons_of_ne (Ne.symm h62)] at hright
        rw [if_neg h62] at hidx1
        omega
    have hdata' : rest.count 44 ≤ sin1.length := by
      by_cases h44 : op = 44
      · subst h44
        rw [List.count_cons_self] at hdata
        rw [if_pos rfl] at hsin1
        omega
      · rw [List.count_cons_of_ne (Ne.symm h44)] at hdata
        rw [if_neg h44] at hsin1
        omega
    obtain ⟨s', sin, o, hp, hend⟩ := ih (pre ++ [op]) s1 sin1 o1 hinp' hoff' hinv1 h93' hright'
      (by rw [hlen1]; exact hcap) hdata'
    refine ⟨s', sin, o, ?_, hend⟩
    rw [List.length_cons, passes_step _ hoffne hb]
    exact hp

/-- C19: for a program with no `]` byte and fewer than 30000 `>` bytes, and a
data input with at least as many bytes as the program has `,` bytes, `Read` from
a fresh interpreter makes exactly `len(program)` passes and returns that count
with a nil error, the offset being `len(program)`. -/
theorem read_straight_line (inp stdin : List Nat) (k : Nat) (hclose : 93 ∉ inp)
    (hright : inp.count 62 < 30000) (hdata : inp.count 44 ≤ stdin.length) :
    (∃ c sin o, passes inp inp.length { NewInterpreter with offset := 0 } stdin []
        = some (c, sin, o) ∧ c.offset = inp.length) ∧
    ∃ r, Read NewInterpreter inp stdin (inp.length + 1 + k) = Run.returned r ∧
      r.n = inp.length ∧ r.err = false ∧ r.state.offset = inp.length := by
  have hinv : straightInv { NewInterpreter with offset := 0 } :=
    ⟨rfl, rfl, Or.inl rfl, by decide, by
      show (0 : Int) < ((List.replicate 30000 0).length : Int)
      rw [List.length_replicate]
      decide⟩
  have hr : ({ NewInterpreter with offset := 0 } : Interpreter).index + (inp.count 62 : Int)
      < (({ NewInterpreter with offset := 0 } : Interpreter).cells.length : Int) := by
    show (0 : Int) + (inp.count 62 : Int) < ((List.replicate 30000 0).length : Int)
    rw [List.length_replicate]
    omega
  have hcap : ((({ NewInterpreter with offset := 0 } : Interpreter).cells.length : Nat) : Int)
      ≤ 9223372036854775807 := by
    show ((List.replicate 30000 0).length : Int) ≤ 9223372036854775807
    rw [List.length_replicate]
    decide
  obtain ⟨c, sin, o, hp, hend⟩ :=
    passes_straight inp inp [] { NewInterpreter with offset := 0 } stdin [] rfl rfl hinv hclose
      hr hcap hdata
  refine ⟨⟨c, sin, o, hp, hend⟩, ?_⟩
  unfold Read
  rw [show inp.length + 1 + k = (k + 1) + inp.length by omega,
    readLoop_passes _ _ _ _ _ _ _ _ _ _ hp, readLoop_done _ _ _ _ hend]
  exact ⟨_, rfl, by simp, rfl, hend⟩

theorem read_straight_line_witness :
    (∃ c sin o, passes [44, 91, 62, 46] [44, 91, 62, 46].length
        { NewInterpreter with offset := 0 } [5, 6] [] = some (c, sin, o) ∧
        c.offset = [44, 91, 62, 46].length) ∧
    ∃ r, Read NewInterpreter [44, 91, 62, 46] [5, 6] ([44, 91, 62, 46].length + 1 + 0)
        = Run.returned r ∧
      r.n = [44, 91, 62, 46].length ∧ r.err = false ∧
      r.state.offset = [44, 91, 62, 46].length :=
  read_straight_line [44, 91, 62, 46] [5, 6] 0 (by decide) (by decide) (by decide)

/-! ## The cursor and the block stack during a run -/

theorem cursorInv_interpret {inp : List Nat} {s s' : Interpreter} {b r : Nat}
    (hinv : cursorInv inp s) (hop : s.storeNext = false → readCell inp s.offset = some b)
    (h : interpret s b = some (r, s')) : cursorInv inp s' := by
  obtain ⟨h0, hlen, hsorted, hentries⟩ := hinv
  rcases interpret_control h with
    ⟨_, _, hbs, _, hoff⟩ | ⟨hst, hb, _, x, hbs, hcases⟩ |
    ⟨hst, hb, _, hbs, hoff, _⟩ | ⟨hst, _, _, hbs, _, hoff, _⟩
  · exact ⟨by rw [hoff]; exact h0, by rw [hoff]; exact hlen, by rw [hbs]; exact hsorted,
      by rw [hbs, hoff]; exact hentries⟩
  · obtain ⟨_, hlt⟩ := readCell_some_inside (hop hst)
    rw [hbs, List.pairwise_append] at hsorted
    obtain ⟨hs1, _, hs3⟩ := hsorted
    have hx : 0 ≤ x ∧ x < s.offset ∧ readCell inp x = some 91 :=
      hentries x (by rw [hbs]; simp)
    have hoffs : s'.offset = s.offset + 1 ∨ s'.offset = x := by
      rcases hcases with ⟨_, _, h1⟩ | ⟨_, _, _, h1⟩ | ⟨_, _, _, h1⟩
      · exact h1
      · exact Or.inl h1
      · exact Or.inl h1
    refine ⟨?_, ?_, hs1, ?_⟩
    · rcases hoffs with h1 | h1 <;> omega
    · rcases hoffs with h1 | h1 <;> omega
    · intro e he
      have hes := hentries e (by rw [hbs]; exact List.mem_append_left _ he)
      have hex : e < x := hs3 e he x (List.mem_singleton_self x)
      refine ⟨hes.1, ?_, hes.2.2⟩
      rcases hoffs with h1 | h1 <;> omega
  · obtain ⟨_, hlt⟩ := readCell_some_inside (hop hst)
    have hopen : readCell inp s.offset = some 91 := by
      rw [← hb]
      exact hop hst
    refine ⟨by omega, by omega, ?_, ?_⟩
    · rw [hbs, List.pairwise_append]
      refine ⟨hsorted, List.pairwise_singleton _ _, ?_⟩
      intro a ha c hc
      rw [List.mem_singleton] at hc
      rw [hc]
      exact (hentries a ha).2.1
    · intro e he
      rw [hbs, List.mem_append, List.mem_singleton] at he
      rcases he with he | he
      · have hes := hentries e he
        exact ⟨hes.1, by omega, hes.2.2⟩
      · rw [he]
        exact ⟨h0, by omega, hopen⟩
  · obtain ⟨_, hlt⟩ := readCell_some_inside (hop hst)
    refine ⟨by omega, by omega, by rw [hbs]; exact hsorted, ?_⟩
    intro e he
    rw [hbs] at he
    have hes := hentries e he
    exact ⟨hes.1, by omega, hes.2.2⟩

theorem cursorInv_readBody_next {inp : List Nat} {s s' : Interpreter}
    {stdin out sin o : List Nat} (hinv : cursorInv inp s)
    (h : readBody inp s stdin out = Pass.next s' sin o) : cursorInv inp s' := by
  unfold readBody at h
  cases hop : readCell inp s.offset with
  | none => simp [hop] at h
  | some op =>
    simp only [hop] at h
    cases hi : interpret s op with
    | none => simp [hi] at h
    | some p =>
      obtain ⟨b, s1⟩ := p
      simp only [hi] at h
      have hinv1 : cursorInv inp s1 := cursorInv_interpret hinv (fun _ => hop) hi
      obtain ⟨idx, off, cs, bs, sn, pr, sk⟩ := s1
      have hinv2 : cursorInv inp (Interpreter.mk idx off cs bs sn false sk) := hinv1
      cases pr <;> cases sn <;>
        simp only [if_true, if_false, Bool.false_eq_true] at h
      all_goals first
        | (simp only [Pass.next.injEq] at h
           obtain ⟨rfl, _, _⟩ := h
           exact hinv2)
        | (cases stdin with
           | nil => simp at h
           | cons c rest =>
             cases hi2 : interpret (Interpreter.mk idx off cs bs true false sk) c with
             | none => simp [hi2] at h
             | some q =>
               obtain ⟨b2, s2⟩ := q
               simp only [hi2, Pass.next.injEq] at h
               obtain ⟨rfl, _, _⟩ := h
               exact cursorInv_interpret hinv2 (fun hx => by cases hx) hi2)

theorem cursorInv_readBody_inputError {inp : List Nat} {s s' : Interpreter}
    {stdin out o : List Nat} (hinv : cursorInv inp s)
    (h : readBody inp s stdin out = Pass.inputError s' o) : cursorInv inp s' := by
  unfold readBody at h
  cases hop : readCell inp s.offset with
  | none => simp [hop] at h
  | some op =>
    simp only [hop] at h
    cases hi : interpret s op with
    | none => simp [hi] at h
    | some p =>
      obtain ⟨b, s1⟩ := p
      simp only [hi] at h
      have hinv1 : cursorInv inp s1 := cursorInv_interpret hinv (fun _ => hop) hi
      obtain ⟨idx, off, cs, bs, sn, pr, sk⟩ := s1
      have hinv2 : cursorInv inp (Interpreter.mk idx off cs bs sn false sk) := hinv1
      cases pr <;> cases sn <;>
        simp only [if_true, if_false, Bool.false_eq_true] at h
      all_goals first
        | (cases h)
        | (cases stdin with
           | nil =>
             simp only [Pass.inputError.injEq] at h
             obtain ⟨rfl, _⟩ := h
             exact hinv2
           | cons c rest =>
             cases hi2 : interpret (Interpreter.mk idx off cs bs true false sk) c with
             | none => simp [hi2] at h
             | some q => simp [hi2] at h)

theorem cursorInv_passes (inp : List Nat) :
    ∀ (k : Nat) (s c : Interpreter) (stdin out sin o : List Nat), cursorInv inp s →
      passes inp k s stdin out = some (c, sin, o) → cursorInv inp c := by
  intro k
  induction k with
  | zero =>
    intro s c stdin out sin o hinv h
    simp only [passes, Option.some.injEq, Prod.mk.injEq] at h
    obtain ⟨rfl, _, _⟩ := h
    exact hinv
  | succ k ih =>
    intro s c stdin out sin o hinv h
    simp only [passes] at h
    by_cases hoff : s.offset = inp.length
    · simp [hoff] at h
    · rw [if_neg hoff] at h
      cases hb : readBody inp s stdin out with
      | crash => simp [hb] at h
      | inputError i o1 => simp [hb] at h
      | next j sin1 o1 =>
        simp only [hb] at h
        exact ih _ _ _ _ _ _ (cursorInv_readBody_next hinv hb) h

theorem cursorInv_readLoop (inp : List Nat) :
    ∀ (fuel : Nat) (s : Interpreter) (stdin out : List Nat) (n : Nat) (r : ReadResult),
      cursorInv inp s → readLoop inp fuel s stdin out n = Run.returned r →
      cursorInv inp r.state := by
  intro fuel
  induction fuel with
  | zero =>
    intro s stdin out n r _ h
    simp [readLoop] at h
  | succ fuel ih =>
    intro s stdin out n r hinv h
    rw [readLoop_succ] at h
    by_cases hoff : s.offset = inp.length
    · rw [if_pos hoff] at h
      simp only [Run.returned.injEq] at h
      subst h
      exact hinv
    · rw [if_neg hoff] at h
      cases hb : readBody inp s stdin out with
      | crash => simp [hb] at h
      | inputError i o1 =>
        simp only [hb, Run.returned.injEq] at h
        subst h
        exact cursorInv_readBody_inputError hinv hb
      | next j sin1 o1 =>
        simp only [hb] at h
        exact ih _ _ _ _ _ (cursorInv_readBody_next hinv hb) h

theorem cursorInv_fresh (inp : List Nat) : cursorInv inp { NewInterpreter with offset := 0 } :=
  ⟨by decide, by
    show (0 : Int) ≤ inp.length
    omega, List.Pairwise.nil, fun e he => by cases he⟩

theorem cursorInv_in_range {inp : List Nat} {s : Interpreter} (hinv : cursorInv inp s)
    (hoff : s.offset ≠ inp.length) : ∃ op, readCell inp s.offset = some op :=
  readCell_inside hinv.1 (by
    have := hinv.2.1
    omega)

/-- C17: in a run of `Read` from a fresh interpreter over the program `inp`,
after any number of passes, and in the state with which `Read` returns, the
offset lies between 0 and `len(inp)`, every entry `e` of the block stack
satisfies `e < offset` and `inp[e]` is `[`, and, when the offset is not
`len(inp)`, it indexes the program in range. -/
theorem read_cursor_invariant (inp stdin : List Nat) :
    (∀ k c sin o, passes inp k { NewInterpreter with offset := 0 } stdin [] = some (c, sin, o) →
      0 ≤ c.offset ∧ c.offset ≤ inp.length ∧
      (∀ e ∈ c.blockStack, e < c.offset ∧ readCell inp e = some 91) ∧
      (c.offset ≠ inp.length → ∃ op, readCell inp c.offset = some op)) ∧
    (∀ fuel r, Read NewInterpreter inp stdin fuel = Run.returned r →
      0 ≤ r.state.offset ∧ r.state.offset ≤ inp.length ∧
      (∀ e ∈ r.state.blockStack, e < r.state.offset ∧ readCell inp e = some 91)) := by
  constructor
  · intro k c sin o h
    have hinv := cursorInv_passes inp k _ c stdin [] sin o (cursorInv_fresh inp) h
    exact ⟨hinv.1, hinv.2.1, fun e he => (hinv.2.2.2 e he).2, cursorInv_in_range hinv⟩
  · intro fuel r h
    have hinv := cursorInv_readLoop inp fuel _ stdin [] 0 r (cursorInv_fresh inp) h
    exact ⟨hinv.1, hinv.2.1, fun e he => (hinv.2.2.2 e he).2⟩

theorem read_cursor_invariant_witness :
    0 ≤ afterPlusOpen.offset ∧ afterPlusOpen.offset ≤ ([43, 91] : List Nat).length ∧
      (∀ e ∈ afterPlusOpen.blockStack, e < afterPlusOpen.offset ∧ readCell [43, 91] e = some 91) ∧
      (afterPlusOpen.offset ≠ ([43, 91] : List Nat).length →
        ∃ op, readCell [43, 91] afterPlusOpen.offset = some op) :=
  (read_cursor_invariant [43, 91] []).1 2 afterPlusOpen [] [] (passes_plusOpen [])

end Brainguck
